import Mathlib

/-! PolyMorphic Systems Video Terminal Interface (`polyvti.cpp`) and Fidelity
Chess Challenger 7 (`fidel_cc7.cpp`)

A shallow embedding of `poly_vti_device` (the address decoder, the 1K video RAM,
the keyboard latch and the raster renderer `screen_update`) and of the I/O
handlers of `bcc_state`, followed by the properties proved about them.

Machine integers are natural numbers; fixed-size arrays are functions on `Fin n`
and every array access with a computed index goes through an `Option`-returning
accessor, so an out-of-bounds access shows up as `none`.
-/

namespace PolyVti

/-! ## Memories -/

/-- Array read `m[i]` of an `n`-element array; `none` when `i` is out of bounds. -/
def mem_read {n : Nat} (m : Fin n → Nat) (i : Nat) : Option Nat :=
  if h : i < n then some (m ⟨i, h⟩) else none

/-- Array store `m[i] = v` on an `n`-element array; `none` when `i` is out of bounds. -/
def mem_write {n : Nat} (m : Fin n → Nat) (i v : Nat) : Option (Fin n → Nat) :=
  if i < n then some (fun k => if k.val = i then v else m k) else none

/-- `BIT(x, n)`: bit `n` of `x`. -/
def BIT (x n : Nat) : Nat := (x >>> n) &&& 1

/-! ## Keyboard latch -/

/-- Modelled from the spec: the `i8212_device` keyboard latch (`machine/i8212.h`,
whose implementation is not part of the sources at hand).  Section 4.3: a
single-slot buffer holding the most recent byte until it is overwritten. -/
structure i8212_device where
  m_data : Nat
deriving DecidableEq

/-- Modelled from the spec: `i8212_device::strobe`, the latch side of `deliver`:
"stores it" (the byte), overwriting whatever was latched before. -/
def i8212_device.strobe (_latch : i8212_device) (data : Nat) : i8212_device :=
  { m_data := data % 0x100 }

/-- Modelled from the spec: `i8212_device::read`: "returns the currently latched
byte (no explicit clear-on-read in this design)". -/
def i8212_device.read (latch : i8212_device) : Nat × i8212_device :=
  (latch.m_data, latch)

/-! ## Device state -/

/-- The state of `poly_vti_device`.
* `m_address`: the value `m_address->read()` of the "ADDRESS" DIP switch bank;
* `m_FNT`: the 0x800-byte "chargen" ROM region;
* `m_video_ram`: the 0x400-byte video RAM;
* `m_kbdlatch`: the keyboard latch. -/
structure poly_vti_device where
  m_kbdlatch : i8212_device
  m_FNT : Fin 0x800 → Nat
  m_address : Nat
  m_video_ram : Fin 0x400 → Nat

/-- `poly_vti_device::s100_smemr_r` (polyvti.cpp:165-171). Returns the byte read
and the device state after the call. -/
def s100_smemr_r (dev : poly_vti_device) (offset : Nat) : Option (Nat × poly_vti_device) :=
  if (offset &&& 0xfc00) >>> 10 = dev.m_address then
    (mem_read dev.m_video_ram (offset &&& 0x3ff)).map (fun v => (v, dev))
  else
    some (0xff, dev)

/-- `poly_vti_device::s100_mwrt_w` (polyvti.cpp:173-177); `data` is a `u8`. -/
def s100_mwrt_w (dev : poly_vti_device) (offset data : Nat) : Option poly_vti_device :=
  if (offset &&& 0xfc00) >>> 10 = dev.m_address then
    (mem_write dev.m_video_ram (offset &&& 0x3ff) (data % 0x100)).map
      (fun ram => { dev with m_video_ram := ram })
  else
    some dev

/-- `poly_vti_device::s100_sinp_r` (polyvti.cpp:179-185). Returns the byte read
and the device state after the call. -/
def s100_sinp_r (dev : poly_vti_device) (offset : Nat) : Nat × poly_vti_device :=
  if (offset &&& 0xfc00) >>> 10 = dev.m_address then
    let res := dev.m_kbdlatch.read
    (res.1, { dev with m_kbdlatch := res.2 })
  else
    (0xff, dev)

/-- `poly_vti_device::kbd_put` (polyvti.cpp:187-195); `data` is a `u8`. -/
def kbd_put (dev : poly_vti_device) (data : Nat) : poly_vti_device :=
  let data := data % 0x100
  if data ≠ 0 then
    let data := if data = 8 then 127 else data
    { dev with m_kbdlatch := dev.m_kbdlatch.strobe data }
  else
    dev

/-- The address decoder of the specification (section 4.1):
`inRange = ((offset >> 10) & 0x3F) == base`. -/
def inRange (offset base : Nat) : Bool := ((offset >>> 10) &&& 0x3F) == base

/-- The local offset of the specification (section 4.1): `offset & 0x3FF`. -/
def localOffset (offset : Nat) : Nat := offset &&& 0x3FF

/-! ## Raster renderer -/

/-- The screen bitmap handed to `screen_update`: `screen.set_size(64*10, 16*15)`,
that is 240 rows of 640 pixels; `pix r c` is the pixel in row `r`, column `c`. -/
@[ext] structure bitmap_ind16 where
  pix : Fin 240 → Fin 640 → Nat

/-- Read access `bitmap.pix16(y, x)`; `none` outside the bitmap. -/
def bitmap_ind16.pix16 (bitmap : bitmap_ind16) (y x : Nat) : Option Nat :=
  if h : y < 240 ∧ x < 640 then some (bitmap.pix ⟨y, h.1⟩ ⟨x, h.2⟩) else none

/-- Write access `bitmap.pix16(y, x) = v`; `none` outside the bitmap. -/
def bitmap_ind16.set_pix16 (bitmap : bitmap_ind16) (y x v : Nat) : Option bitmap_ind16 :=
  if y < 240 ∧ x < 640 then
    some ⟨fun r c => if r.val = y ∧ c.val = x then v else bitmap.pix r c⟩
  else none

/-- The loop `for (int i = 0; i < n; i++) body(i)` over a state `σ`; the body can
fail (an out-of-bounds access), which aborts the loop. -/
def forLoop {σ : Type} (body : Nat → σ → Option σ) : Nat → σ → Option σ
  | 0, s => some s
  | n + 1, s => (forLoop body n s).bind (body n)

/-- `poly_vti_device::s_mcm6571a_shift` (polyvti.cpp:85-95). -/
def s_mcm6571a_shift : List Nat :=
  [0,1,1,0,0,0,1,0,0,0,0,1,0,0,0,0,
   1,0,0,0,0,0,1,0,0,0,0,0,0,0,0,0,
   0,0,0,0,0,0,0,0,0,0,0,0,1,0,0,0,
   0,0,0,0,0,0,0,0,0,0,0,1,0,0,0,0,
   0,0,0,0,0,0,0,0,0,0,0,0,0,0,0,0,
   0,0,0,0,0,0,0,0,0,0,0,0,0,0,0,0,
   0,0,0,0,0,0,0,1,0,0,1,0,0,0,0,0,
   1,1,0,0,0,0,0,0,0,1,0,0,0,0,0,0]

/-- Body of the loop over `b` in the segment branch (polyvti.cpp:113-130):
`r = b/5` and the six guarded pixel stores; `l` is the `u8 l = j/5` of line 110. -/
def segment_b_body (code y j xpos l b : Nat) (bitmap : bitmap_ind16) : Option bitmap_ind16 := do
  let r := (b / 5) % 0x100
  let bitmap ← if l = 0 ∧ r = 0 then
      bitmap.set_pix16 (y * 15 + j) (xpos + b) (if BIT code 5 ≠ 0 then 0 else 1)
    else some bitmap
  let bitmap ← if l = 0 ∧ r = 1 then
      bitmap.set_pix16 (y * 15 + j) (xpos + b) (if BIT code 2 ≠ 0 then 0 else 1)
    else some bitmap
  let bitmap ← if l = 1 ∧ r = 0 then
      bitmap.set_pix16 (y * 15 + j) (xpos + b) (if BIT code 4 ≠ 0 then 0 else 1)
    else some bitmap
  let bitmap ← if l = 1 ∧ r = 1 then
      bitmap.set_pix16 (y * 15 + j) (xpos + b) (if BIT code 1 ≠ 0 then 0 else 1)
    else some bitmap
  let bitmap ← if l = 2 ∧ r = 0 then
      bitmap.set_pix16 (y * 15 + j) (xpos + b) (if BIT code 3 ≠ 0 then 0 else 1)
    else some bitmap
  let bitmap ← if l = 2 ∧ r = 1 then
      bitmap.set_pix16 (y * 15 + j) (xpos + b) (if BIT code 0 ≠ 0 then 0 else 1)
    else some bitmap
  some bitmap

/-- Body of the loop over `j` in the segment branch (polyvti.cpp:108-132). -/
def segment_j_body (code y xpos j : Nat) (bitmap : bitmap_ind16) : Option bitmap_ind16 :=
  let l := (j / 5) % 0x100
  forLoop (segment_b_body code y j xpos l) 10 bitmap

/-- The font byte `l` of cell row `j` (polyvti.cpp:139-149), for the already
masked `code`. -/
def font_line (dev : poly_vti_device) (code j : Nat) : Option Nat := do
  let shift ← s_mcm6571a_shift[code]?
  if shift = 0 then
    if j < 9 then mem_read dev.m_FNT (code * 16 + j) else some 0
  else
    if j > 2 ∧ j < 12 then mem_read dev.m_FNT (code * 16 + j - 3) else some 0

/-- Body of the loop over `j` in the font branch (polyvti.cpp:136-157); the
state is the local `code`, which the body masks, and the bitmap. -/
def font_j_body (dev : poly_vti_device) (y xpos j : Nat) (st : Nat × bitmap_ind16) :
    Option (Nat × bitmap_ind16) := do
  let code := st.1 &&& 0x7f
  let l ← font_line dev code j
  let bitmap ← forLoop
    (fun b bitmap => bitmap.set_pix16 (y * 15 + j) (xpos + b) ((l >>> (6 - b)) &&& 1)) 7 st.2
  let bitmap ← bitmap.set_pix16 (y * 15 + j) (xpos + 7) 0
  let bitmap ← bitmap.set_pix16 (y * 15 + j) (xpos + 8) 0
  let bitmap ← bitmap.set_pix16 (y * 15 + j) (xpos + 9) 0
  some (code, bitmap)

/-- Body of the loop over `x` (polyvti.cpp:103-160); the state is `xpos` and the
bitmap. -/
def x_body (dev : poly_vti_device) (y addr x : Nat) (st : Nat × bitmap_ind16) :
    Option (Nat × bitmap_ind16) := do
  let xpos := st.1
  let code ← mem_read dev.m_video_ram (addr + x)
  let bitmap ← if code &&& 0x80 = 0 then
      forLoop (segment_j_body code y xpos) 15 st.2
    else
      (forLoop (font_j_body dev y xpos) 15 (code, st.2)).map Prod.snd
  some (xpos + 10, bitmap)

/-- Body of the loop over `y` (polyvti.cpp:99-161); `addr` is a `u16`. -/
def y_body (dev : poly_vti_device) (y : Nat) (bitmap : bitmap_ind16) : Option bitmap_ind16 := do
  let addr := (y * 64) % 0x10000
  let st ← forLoop (x_body dev y addr) 64 (0, bitmap)
  some st.2

/-- `poly_vti_device::screen_update` (polyvti.cpp:97-163). Returns the return
value, the device state after the call and the bitmap after the call. -/
def screen_update (dev : poly_vti_device) (bitmap : bitmap_ind16) :
    Option (Nat × poly_vti_device × bitmap_ind16) := do
  let bitmap ← forLoop (y_body dev) 16 bitmap
  some (0, dev, bitmap)

/-- The segment bit of the specification (section 4.4) for band `l` and half `r`:
bit 5→(0,0), bit 2→(0,1), bit 4→(1,0), bit 1→(1,1), bit 3→(2,0), bit 0→(2,1). -/
def segmentBit (l r : Nat) : Nat :=
  match l, r with
  | 0, 0 => 5
  | 0, 1 => 2
  | 1, 0 => 4
  | 1, 1 => 1
  | 2, 0 => 3
  | _, _ => 0

/-! ## Closed forms of the rendered picture, used in the loop invariants -/

/-- The bitmap `bitmap` with the `h` by `w` rectangle whose top left corner is
row `Y`, column `X` overwritten by `g (row - Y) (column - X)`. -/
def rect_fill (bitmap : bitmap_ind16) (Y X h w : Nat) (g : Nat → Nat → Nat) : bitmap_ind16 :=
  ⟨fun r c =>
    if Y ≤ r.val ∧ r.val < Y + h ∧ X ≤ c.val ∧ c.val < X + w then g (r.val - Y) (c.val - X)
    else bitmap.pix r c⟩

/-- Pixel `(j, b)` of a cell drawn by the segment branch for `code`. -/
def segment_value (code j b : Nat) : Nat :=
  if BIT code (segmentBit (j / 5) (b / 5)) ≠ 0 then 0 else 1

/-- Pixel `(j, b)` of a cell drawn by the font branch for the masked `code`. -/
def font_value (dev : poly_vti_device) (code j b : Nat) : Nat :=
  if b < 7 then (((font_line dev code j).getD 0) >>> (6 - b)) &&& 1 else 0

/-- Pixel `(j, b)` of a cell whose video RAM byte is `code`. -/
def cell_pixel (dev : poly_vti_device) (code j b : Nat) : Nat :=
  if code &&& 0x80 = 0 then segment_value code j b else font_value dev (code &&& 0x7f) j b

/-- The video RAM byte at index `i` (0 outside the RAM). -/
def video_ram_at (dev : poly_vti_device) (i : Nat) : Nat :=
  (mem_read dev.m_video_ram i).getD 0

/-- Pixel in row `r`, column `c` of the rendered screen. -/
def screen_pixel (dev : poly_vti_device) (r c : Nat) : Nat :=
  cell_pixel dev (video_ram_at dev (r / 15 * 64 + c / 10)) (r % 15) (c % 10)

/-- The rendered screen. -/
def render (dev : poly_vti_device) : bitmap_ind16 :=
  ⟨fun r c => screen_pixel dev r.val c.val⟩

/-- Modelled from the spec: `make_unique_clear<u8[]>(n)`, the allocator called by
`device_start` (it is not among the sources at hand); section 3: the video
memory is "zero-initialized at creation". -/
def make_unique_clear (n : Nat) : Fin n → Nat := fun _ => 0

/-- `poly_vti_device::device_start` (polyvti.cpp:79-83). -/
def device_start (dev : poly_vti_device) : poly_vti_device :=
  { dev with m_video_ram := make_unique_clear 0x400 }

/-- The settings of the "Address Range" DIP switches (polyvti.cpp:205-269): the
switch value and the first and last address printed for it. -/
def address_dip_settings : List (Nat × Nat × Nat) :=
  [(0x00, 0x0000, 0x03FF), (0x01, 0x0400, 0x07FF), (0x02, 0x0800, 0x0BFF), (0x03, 0x0C00, 0x0FFF),
   (0x04, 0x1000, 0x13FF), (0x05, 0x1400, 0x17FF), (0x06, 0x1800, 0x1BFF), (0x07, 0x1C00, 0x1FFF),
   (0x08, 0x2000, 0x23FF), (0x09, 0x2400, 0x27FF), (0x0a, 0x2800, 0x2BFF), (0x0b, 0x2C00, 0x2FFF),
   (0x0c, 0x3000, 0x33FF), (0x0d, 0x3400, 0x37FF), (0x0e, 0x3800, 0x3BFF), (0x0f, 0x3C00, 0x3FFF),
   (0x10, 0x4000, 0x43FF), (0x11, 0x4400, 0x47FF), (0x12, 0x4800, 0x4BFF), (0x13, 0x4C00, 0x4FFF),
   (0x14, 0x5000, 0x53FF), (0x15, 0x5400, 0x57FF), (0x16, 0x5800, 0x5BFF), (0x17, 0x5C00, 0x5FFF),
   (0x18, 0x6000, 0x63FF), (0x19, 0x6400, 0x67FF), (0x1a, 0x6800, 0x6BFF), (0x1b, 0x6C00, 0x6FFF),
   (0x1c, 0x7000, 0x73FF), (0x1d, 0x7400, 0x77FF), (0x1e, 0x7800, 0x7BFF), (0x1f, 0x7C00, 0x7FFF),
   (0x20, 0x8000, 0x83FF), (0x21, 0x8400, 0x87FF), (0x22, 0x8800, 0x8BFF), (0x23, 0x8C00, 0x8FFF),
   (0x24, 0x9000, 0x93FF), (0x25, 0x9400, 0x97FF), (0x26, 0x9800, 0x9BFF), (0x27, 0x9C00, 0x9FFF),
   (0x28, 0xA000, 0xA3FF), (0x29, 0xA400, 0xA7FF), (0x2a, 0xA800, 0xABFF), (0x2b, 0xAC00, 0xAFFF),
   (0x2c, 0xB000, 0xB3FF), (0x2d, 0xB400, 0xB7FF), (0x2e, 0xB800, 0xBBFF), (0x2f, 0xBC00, 0xBFFF),
   (0x30, 0xC000, 0xC3FF), (0x31, 0xC400, 0xC7FF), (0x32, 0xC800, 0xCBFF), (0x33, 0xCC00, 0xCFFF),
   (0x34, 0xD000, 0xD3FF), (0x35, 0xD400, 0xD7FF), (0x36, 0xD800, 0xDBFF), (0x37, 0xDC00, 0xDFFF),
   (0x38, 0xE000, 0xE3FF), (0x39, 0xE400, 0xE7FF), (0x3a, 0xE800, 0xEBFF), (0x3b, 0xEC00, 0xEFFF),
   (0x3c, 0xF000, 0xF3FF), (0x3d, 0xF400, 0xF7FF), (0x3e, 0xF800, 0xFBFF), (0x3f, 0xFC00, 0xFFFF)]

/-! ## Sample inputs -/

/-- A device with the card at F800-FBFF (DIP setting 0x3e, the default), every
video RAM byte equal to `v`, the byte `k` in the keyboard latch and font ROM
byte `i % 256` at index `i`. -/
def sample_device (v k : Nat) : poly_vti_device :=
  { m_kbdlatch := { m_data := k }
    m_FNT := fun i => i.val % 256
    m_address := 0x3e
    m_video_ram := fun _ => v }

/-- The all-zero bitmap. -/
def blank_bitmap : bitmap_ind16 := ⟨fun _ _ => 0⟩

/-- The device `sample_device v 0` with the single video RAM byte at index `k`
replaced by `w`. -/
def sample_device_poke (v k w : Nat) : poly_vti_device :=
  { sample_device v 0 with m_video_ram := fun i => if i.val = k then w else v }

end PolyVti

/-! Fidelity Chess Challenger 7 (`fidel_cc7.cpp`): the I/O handlers of `bcc_state`. -/

namespace FidelCC7

/-- `BIT(x, n)`: bit `n` of `x`. -/
def BIT (x n : Nat) : Nat := (x >>> n) &&& 1

/-- The state of `bcc_state` that the I/O handlers touch.
* `m_7seg_data`, `m_inp_mux`: members inherited from `fidelbase_state`. Their
  declaration is not among the sources at hand; `m_7seg_data` holds the segment
  byte (NE591 Q0-Q7) and is at most 32 bits wide;
* `m_inp_matrix i`: the value read from input port `IN.i` (the keypad row `i`);
* `m_dac`: `none` when there is no DAC (`m_dac == nullptr`, the BKC), otherwise
  the level last written to it;
* `display_segmask`, `display_matrix`: the arguments of the last call of
  `set_display_segmask` and of `display_matrix`, `none` before the first call. -/
structure bcc_state where
  m_7seg_data : Nat
  m_inp_mux : Nat
  m_inp_matrix : Nat → Nat
  m_dac : Option Nat
  display_segmask : Option (Nat × Nat)
  display_matrix : Option (Nat × Nat × Nat × Nat)

/-- `bcc_state::control_w` (fidel_cc7.cpp:84-99); `data` is a `u8`, `mask` is a
`u8` and `~mask` is its complement as a 32-bit `int`. -/
def control_w (st : bcc_state) (offset data : Nat) : bcc_state :=
  let data := data % 0x100
  let mask := (1 <<< (offset &&& 7)) % 0x100
  let seg := (st.m_7seg_data &&& (mask ^^^ 0xFFFFFFFF)) ||| (if data &&& 0x80 ≠ 0 then mask else 0)
  { st with
    m_7seg_data := seg
    m_dac := st.m_dac.map (fun _ => BIT seg 7)
    display_segmask := some (0xf, 0x7f)
    display_matrix := some (8, 6, seg, data &&& 0x3f)
    m_inp_mux := data &&& 0xf }

/-- Modelled from the spec: `fidelbase_state::read_inputs` (fidelbase.cpp is not
among the sources at hand). Section 4.5: "the exposed value is the OR of
`rowBits[i]` for each bit `i` set in `muxSelect`, truncated to the requested
width", over the 4 rows of the keypad matrix. -/
def read_inputs (st : bcc_state) (width : Nat) : Nat :=
  ((List.range 4).foldl
    (fun ret i => if BIT st.m_inp_mux i ≠ 0 then ret ||| st.m_inp_matrix i else ret) 0)
    % 2 ^ width

/-- `bcc_state::input_r` (fidel_cc7.cpp:101-105); the result is a `u8`. -/
def input_r (st : bcc_state) : Nat :=
  (read_inputs st 4) % 0x100

/-- The keypad rows of the specification example, `rowBits = [0x1, 0x2, 0x4, 0x8]`. -/
def sample_rows (i : Nat) : Nat := [0x1, 0x2, 0x4, 0x8].getD i 0

/-- A machine state with segment byte `seg`, mux selection `mux`, the keypad
rows `sample_rows` and a DAC. -/
def sample_state (seg mux : Nat) : bcc_state :=
  { m_7seg_data := seg
    m_inp_mux := mux
    m_inp_matrix := sample_rows
    m_dac := some 0
    display_segmask := none
    display_matrix := none }

end FidelCC7

namespace PolyVti

/-! ## Auxiliary lemmas -/

theorem and_3ff_lt (offset : Nat) : offset &&& 0x3ff < 0x400 :=
  Nat.and_lt_two_pow offset (by norm_num : 0x3ff < 2 ^ 10)

theorem and_7f_lt (code : Nat) : code &&& 0x7f < 128 :=
  Nat.and_lt_two_pow code (by norm_num : 0x7f < 2 ^ 7)

theorem and_7f_idem (code : Nat) : (code &&& 0x7f) &&& 0x7f = code &&& 0x7f := by
  rw [Nat.and_assoc, Nat.and_self]

theorem decode_eq (offset : Nat) :
    (offset &&& 0xfc00) >>> 10 = (offset >>> 10) &&& 0x3f := by
  apply Nat.eq_of_testBit_eq
  intro i
  have h1 : (0xfc00 : Nat) = 0x3f <<< 10 := by decide
  simp only [Nat.testBit_shiftRight, Nat.testBit_and]
  rw [h1, Nat.testBit_shiftLeft]
  simp

theorem forLoop_eq {σ : Type} (body : Nat → σ → Option σ) (F : Nat → σ) (n : Nat)
    (hstep : ∀ i, i < n → body i (F i) = some (F (i + 1))) :
    forLoop body n (F 0) = some (F n) := by
  induction n with
  | zero => rfl
  | succ k ih =>
    have hk := ih (fun i hi => hstep i (Nat.lt_succ_of_lt hi))
    simp only [forLoop, hk, Option.some_bind]
    exact hstep k (Nat.lt_succ_self k)

theorem rect_fill_zero_w (bitmap : bitmap_ind16) (Y X h : Nat) (g : Nat → Nat → Nat) :
    rect_fill bitmap Y X h 0 g = bitmap := by
  ext r c
  simp only [rect_fill]
  rw [if_neg (by omega)]

theorem rect_fill_zero_h (bitmap : bitmap_ind16) (Y X w : Nat) (g : Nat → Nat → Nat) :
    rect_fill bitmap Y X 0 w g = bitmap := by
  ext r c
  simp only [rect_fill]
  rw [if_neg (by omega)]

theorem set_pix16_eq (bitmap : bitmap_ind16) (R C v : Nat) (hR : R < 240) (hC : C < 640) :
    bitmap.set_pix16 R C v = some (rect_fill bitmap R C 1 1 (fun _ _ => v)) := by
  simp only [bitmap_ind16.set_pix16, rect_fill, if_pos (And.intro hR hC)]
  congr 1
  ext r c
  dsimp only
  by_cases h : r.val = R ∧ c.val = C
  · rw [if_pos h, if_pos (by omega)]
  · rw [if_neg h, if_neg (by omega)]

/-- A loop of pixel stores along row `R`, columns `X .. X + n - 1`. -/
theorem row_loop (body : Nat → bitmap_ind16 → Option bitmap_ind16) (R X n : Nat)
    (f : Nat → Nat) (hR : R < 240) (hX : X + n ≤ 640)
    (hb : ∀ b, b < n → ∀ bm, body b bm = bm.set_pix16 R (X + b) (f b))
    (bitmap : bitmap_ind16) :
    forLoop body n bitmap = some (rect_fill bitmap R X 1 n (fun _ b => f b)) := by
  have h := forLoop_eq body (fun i => rect_fill bitmap R X 1 i (fun _ b => f b)) n (by
    intro i hi
    rw [hb i hi, set_pix16_eq _ _ _ _ hR (by omega)]
    congr 1
    ext r c
    simp only [rect_fill]
    by_cases h1 : R ≤ r.val ∧ r.val < R + 1 ∧ X + i ≤ c.val ∧ c.val < X + i + 1
    · rw [if_pos h1, if_pos (by omega)]
      have : c.val - X = i := by omega
      rw [this]
    · rw [if_neg h1]
      by_cases h2 : R ≤ r.val ∧ r.val < R + 1 ∧ X ≤ c.val ∧ c.val < X + i
      · rw [if_pos h2, if_pos (by omega)]
      · rw [if_neg h2, if_neg (by omega)])
  simp only [rect_fill_zero_w] at h
  exact h

theorem rect_fill_succ_row (bitmap : bitmap_ind16) (Y X i w : Nat) (g : Nat → Nat → Nat) :
    rect_fill (rect_fill bitmap Y X i w g) (Y + i) X 1 w (fun _ b => g i b) =
      rect_fill bitmap Y X (i + 1) w g := by
  ext r c
  simp only [rect_fill]
  by_cases h1 : Y + i ≤ r.val ∧ r.val < Y + i + 1 ∧ X ≤ c.val ∧ c.val < X + w
  · rw [if_pos h1, if_pos (by omega)]
    have : r.val - Y = i := by omega
    rw [this]
  · rw [if_neg h1]
    by_cases h2 : Y ≤ r.val ∧ r.val < Y + i ∧ X ≤ c.val ∧ c.val < X + w
    · rw [if_pos h2, if_pos (by omega)]
    · rw [if_neg h2, if_neg (by omega)]

/-- A loop over `n` rows, each iteration of which overwrites `w` pixels of its row. -/
theorem col_loop (body : Nat → bitmap_ind16 → Option bitmap_ind16) (Y X n w : Nat)
    (g : Nat → Nat → Nat)
    (hb : ∀ j, j < n → ∀ bm, body j bm = some (rect_fill bm (Y + j) X 1 w (fun _ b => g j b)))
    (bitmap : bitmap_ind16) :
    forLoop body n bitmap = some (rect_fill bitmap Y X n w g) := by
  have h := forLoop_eq body (fun i => rect_fill bitmap Y X i w g) n (by
    intro i hi
    rw [hb i hi, rect_fill_succ_row])
  simp only [rect_fill_zero_h] at h
  exact h

theorem segment_b_body_eq (code y j xpos b : Nat) (hj : j < 15) (hb : b < 10)
    (bitmap : bitmap_ind16) :
    segment_b_body code y j xpos ((j / 5) % 0x100) b bitmap =
      bitmap.set_pix16 (y * 15 + j) (xpos + b) (segment_value code j b) := by
  have hl : (j / 5) % 0x100 = j / 5 := by omega
  have hr : (b / 5) % 0x100 = b / 5 := by omega
  have hl3 : j / 5 = 0 ∨ j / 5 = 1 ∨ j / 5 = 2 := by omega
  have hr2 : b / 5 = 0 ∨ b / 5 = 1 := by omega
  rw [hl]
  simp only [segment_b_body, hr, segment_value]
  rcases hl3 with h | h | h <;> rcases hr2 with h' | h' <;>
    simp [h, h', segmentBit]

theorem segment_j_body_eq (code y xpos j : Nat) (hy : y < 16) (hj : j < 15)
    (hx : xpos + 10 ≤ 640) (bitmap : bitmap_ind16) :
    segment_j_body code y xpos j bitmap =
      some (rect_fill bitmap (y * 15 + j) xpos 1 10 (fun _ b => segment_value code j b)) := by
  unfold segment_j_body
  exact row_loop _ (y * 15 + j) xpos 10 (fun b => segment_value code j b) (by omega) hx
    (fun b hb bm => segment_b_body_eq code y j xpos b hj hb bm) bitmap

theorem shift_length : s_mcm6571a_shift.length = 128 := rfl

theorem shift_lookup (code : Nat) (h : code < 128) :
    ∃ s, s_mcm6571a_shift[code]? = some s := by
  have hlen : code < s_mcm6571a_shift.length := by rw [shift_length]; exact h
  exact ⟨s_mcm6571a_shift[code], List.getElem?_eq_getElem hlen⟩

theorem mem_read_some {n : Nat} (m : Fin n → Nat) (i : Nat) (h : i < n) :
    mem_read m i = some (m ⟨i, h⟩) := by
  simp only [mem_read, dif_pos h]

theorem font_line_some (dev : poly_vti_device) (code j : Nat) (hc : code < 128) :
    ∃ l, font_line dev code j = some l := by
  obtain ⟨s, hs⟩ := shift_lookup code hc
  simp only [font_line, hs, Option.bind_eq_bind, Option.some_bind]
  by_cases h0 : s = 0
  · rw [if_pos h0]
    by_cases h9 : j < 9
    · rw [if_pos h9]
      exact ⟨_, mem_read_some dev.m_FNT (code * 16 + j) (by omega)⟩
    · rw [if_neg h9]
      exact ⟨0, rfl⟩
  · rw [if_neg h0]
    by_cases h9 : j > 2 ∧ j < 12
    · rw [if_pos h9]
      exact ⟨_, mem_read_some dev.m_FNT (code * 16 + j - 3) (by omega)⟩
    · rw [if_neg h9]
      exact ⟨0, rfl⟩

theorem font_j_body_eq (dev : poly_vti_device) (y xpos j code : Nat) (hy : y < 16)
    (hj : j < 15) (hx : xpos + 10 ≤ 640) (bitmap : bitmap_ind16) :
    font_j_body dev y xpos j (code, bitmap) =
      some (code &&& 0x7f,
        rect_fill bitmap (y * 15 + j) xpos 1 10
          (fun _ b => font_value dev (code &&& 0x7f) j b)) := by
  obtain ⟨l, hl⟩ := font_line_some dev (code &&& 0x7f) j (and_7f_lt code)
  have hrow := row_loop
    (fun b bm => bm.set_pix16 (y * 15 + j) (xpos + b) ((l >>> (6 - b)) &&& 1))
    (y * 15 + j) xpos 7 (fun b => (l >>> (6 - b)) &&& 1) (by omega) (by omega)
    (fun _ _ _ => rfl) bitmap
  unfold font_j_body
  dsimp only [Option.bind_eq_bind]
  rw [hl, Option.some_bind, hrow, Option.some_bind]
  rw [set_pix16_eq _ _ _ _ (by omega) (by omega), Option.some_bind,
    set_pix16_eq _ _ _ _ (by omega) (by omega), Option.some_bind,
    set_pix16_eq _ _ _ _ (by omega) (by omega), Option.some_bind]
  refine congrArg (fun t => some (code &&& 0x7f, t)) ?_
  ext r c
  simp only [rect_fill, font_value]
  rw [hl, Option.getD_some]
  by_cases hr : r.val = y * 15 + j
  · by_cases hc : xpos ≤ c.val ∧ c.val < xpos + 10
    · rw [if_pos (by omega : y * 15 + j ≤ r.val ∧ r.val < y * 15 + j + 1 ∧
        xpos ≤ c.val ∧ c.val < xpos + 10)]
      by_cases h7 : c.val - xpos < 7
      · rw [if_pos h7, if_neg (by omega), if_neg (by omega), if_neg (by omega),
          if_pos (by omega)]
      · rw [if_neg h7]
        by_cases h9 : c.val = xpos + 9
        · rw [if_pos (by omega)]
        · rw [if_neg (by omega)]
          by_cases h8 : c.val = xpos + 8
          · rw [if_pos (by omega)]
          · rw [if_neg (by omega), if_pos (by omega)]
    · rw [if_neg (by omega), if_neg (by omega), if_neg (by omega), if_neg (by omega),
        if_neg (by omega)]
  · rw [if_neg (by omega), if_neg (by omega), if_neg (by omega), if_neg (by omega),
      if_neg (by omega)]

theorem segment_cell_eq (code y xpos : Nat) (hy : y < 16) (hx : xpos + 10 ≤ 640)
    (bitmap : bitmap_ind16) :
    forLoop (segment_j_body code y xpos) 15 bitmap =
      some (rect_fill bitmap (y * 15) xpos 15 10 (segment_value code)) :=
  col_loop _ (y * 15) xpos 15 10 (segment_value code)
    (fun j hj bm => segment_j_body_eq code y xpos j hy hj hx bm) bitmap

theorem font_cell_eq (dev : poly_vti_device) (code y xpos : Nat) (hy : y < 16)
    (hx : xpos + 10 ≤ 640) (bitmap : bitmap_ind16) :
    forLoop (font_j_body dev y xpos) 15 (code, bitmap) =
      some (code &&& 0x7f,
        rect_fill bitmap (y * 15) xpos 15 10 (font_value dev (code &&& 0x7f))) := by
  have h := forLoop_eq (font_j_body dev y xpos)
    (fun i => (if i = 0 then code else code &&& 0x7f,
      rect_fill bitmap (y * 15) xpos i 10 (font_value dev (code &&& 0x7f)))) 15 (by
    intro i hi
    rw [font_j_body_eq dev y xpos i _ hy hi hx]
    have hm : (if i = 0 then code else code &&& 0x7f) &&& 0x7f = code &&& 0x7f := by
      by_cases h0 : i = 0
      · rw [if_pos h0]
      · rw [if_neg h0, and_7f_idem]
    dsimp only
    rw [hm, rect_fill_succ_row, if_neg (Nat.succ_ne_zero i)])
  simp only [rect_fill_zero_h, if_pos, if_neg] at h
  exact h

theorem x_body_eq (dev : poly_vti_device) (y x : Nat) (hy : y < 16) (hx : x < 64)
    (bitmap : bitmap_ind16) :
    x_body dev y ((y * 64) % 0x10000) x (x * 10, bitmap) =
      some (x * 10 + 10,
        rect_fill bitmap (y * 15) (x * 10) 15 10
          (cell_pixel dev (video_ram_at dev (y * 64 + x)))) := by
  have haddr : (y * 64) % 0x10000 = y * 64 := by omega
  have hi : y * 64 + x < 0x400 := by omega
  have hread := mem_read_some dev.m_video_ram (y * 64 + x) hi
  have hat : video_ram_at dev (y * 64 + x) = dev.m_video_ram ⟨y * 64 + x, hi⟩ := by
    simp only [video_ram_at, hread, Option.getD_some]
  unfold x_body
  dsimp only [Option.bind_eq_bind]
  rw [haddr, hread, Option.some_bind, hat]
  by_cases hm : dev.m_video_ram ⟨y * 64 + x, hi⟩ &&& 0x80 = 0
  · rw [if_pos hm, segment_cell_eq _ y (x * 10) hy (by omega), Option.some_bind]
    have hc : cell_pixel dev (dev.m_video_ram ⟨y * 64 + x, hi⟩) =
        segment_value (dev.m_video_ram ⟨y * 64 + x, hi⟩) := by
      funext j b
      simp only [cell_pixel, if_pos hm]
    rw [hc]
  · rw [if_neg hm, font_cell_eq dev _ y (x * 10) hy (by omega), Option.map_some',
      Option.some_bind]
    have hc : cell_pixel dev (dev.m_video_ram ⟨y * 64 + x, hi⟩) =
        font_value dev (dev.m_video_ram ⟨y * 64 + x, hi⟩ &&& 0x7f) := by
      funext j b
      simp only [cell_pixel, if_neg hm]
    rw [hc]

theorem rect_fill_succ_cell (dev : poly_vti_device) (bitmap : bitmap_ind16) (y x : Nat) :
    rect_fill
        (rect_fill bitmap (y * 15) 0 15 (x * 10) (fun j c => screen_pixel dev (y * 15 + j) c))
        (y * 15) (x * 10) 15 10 (cell_pixel dev (video_ram_at dev (y * 64 + x))) =
      rect_fill bitmap (y * 15) 0 15 ((x + 1) * 10)
        (fun j c => screen_pixel dev (y * 15 + j) c) := by
  ext r c
  simp only [rect_fill]
  by_cases h1 : y * 15 ≤ r.val ∧ r.val < y * 15 + 15 ∧ x * 10 ≤ c.val ∧ c.val < x * 10 + 10
  · rw [if_pos h1, if_pos (by omega)]
    have e1 : (y * 15 + (r.val - y * 15)) / 15 = y := by omega
    have e2 : (y * 15 + (r.val - y * 15)) % 15 = r.val - y * 15 := by omega
    have e3 : (c.val - 0) / 10 = x := by omega
    have e4 : (c.val - 0) % 10 = c.val - x * 10 := by omega
    simp only [screen_pixel, e1, e2, e3, e4]
  · rw [if_neg h1]
    by_cases h2 : y * 15 ≤ r.val ∧ r.val < y * 15 + 15 ∧ 0 ≤ c.val ∧ c.val < 0 + x * 10
    · rw [if_pos h2, if_pos (by omega)]
    · rw [if_neg h2, if_neg (by omega)]

theorem line_eq (dev : poly_vti_device) (y : Nat) (hy : y < 16) (bitmap : bitmap_ind16) :
    forLoop (x_body dev y ((y * 64) % 0x10000)) 64 (0, bitmap) =
      some (640,
        rect_fill bitmap (y * 15) 0 15 640 (fun j c => screen_pixel dev (y * 15 + j) c)) := by
  have h := forLoop_eq (x_body dev y ((y * 64) % 0x10000))
    (fun i => (i * 10,
      rect_fill bitmap (y * 15) 0 15 (i * 10) (fun j c => screen_pixel dev (y * 15 + j) c)))
    64 (by
      intro i hi
      dsimp only
      rw [x_body_eq dev y i hy hi, rect_fill_succ_cell]
      have e : i * 10 + 10 = (i + 1) * 10 := by omega
      rw [e])
  simp only [Nat.zero_mul, rect_fill_zero_w] at h
  exact h

theorem y_body_eq (dev : poly_vti_device) (y : Nat) (hy : y < 16) (bitmap : bitmap_ind16) :
    y_body dev y bitmap =
      some (rect_fill bitmap (y * 15) 0 15 640
        (fun j c => screen_pixel dev (y * 15 + j) c)) := by
  unfold y_body
  dsimp only [Option.bind_eq_bind]
  rw [line_eq dev y hy, Option.some_bind]

theorem rect_fill_succ_line (dev : poly_vti_device) (bitmap : bitmap_ind16) (y : Nat) :
    rect_fill (rect_fill bitmap 0 0 (y * 15) 640 (screen_pixel dev))
        (y * 15) 0 15 640 (fun j c => screen_pixel dev (y * 15 + j) c) =
      rect_fill bitmap 0 0 ((y + 1) * 15) 640 (screen_pixel dev) := by
  ext r c
  simp only [rect_fill]
  by_cases h1 : y * 15 ≤ r.val ∧ r.val < y * 15 + 15 ∧ 0 ≤ c.val ∧ c.val < 0 + 640
  · rw [if_pos h1, if_pos (by omega)]
    have e1 : y * 15 + (r.val - y * 15) = r.val - 0 := by omega
    rw [e1]
  · rw [if_neg h1]
    by_cases h2 : 0 ≤ r.val ∧ r.val < 0 + y * 15 ∧ 0 ≤ c.val ∧ c.val < 0 + 640
    · rw [if_pos h2, if_pos (by omega)]
    · rw [if_neg h2, if_neg (by omega)]

theorem rect_fill_full (dev : poly_vti_device) (bitmap : bitmap_ind16) :
    rect_fill bitmap 0 0 240 640 (screen_pixel dev) = render dev := by
  ext r c
  simp only [rect_fill, render]
  rw [if_pos (by omega)]
  rfl

/-- The renderer never fails and its result is the closed form `render dev`,
whatever the bitmap held before. -/
theorem screen_update_eq (dev : poly_vti_device) (bitmap : bitmap_ind16) :
    screen_update dev bitmap = some (0, dev, render dev) := by
  have h := forLoop_eq (y_body dev)
    (fun i => rect_fill bitmap 0 0 (i * 15) 640 (screen_pixel dev)) 16 (by
      intro i hi
      dsimp only
      rw [y_body_eq dev i hi, rect_fill_succ_line])
  simp only [Nat.zero_mul, rect_fill_zero_h] at h
  unfold screen_update
  dsimp only [Option.bind_eq_bind]
  rw [h, Option.some_bind, rect_fill_full]

theorem render_pix16 (dev : poly_vti_device) (x y j b : Nat) (hx : x < 64) (hy : y < 16)
    (hj : j < 15) (hb : b < 10) :
    (render dev).pix16 (y * 15 + j) (x * 10 + b) =
      some (cell_pixel dev (video_ram_at dev (y * 64 + x)) j b) := by
  have h : y * 15 + j < 240 ∧ x * 10 + b < 640 := by omega
  have e1 : (y * 15 + j) / 15 = y := by omega
  have e2 : (y * 15 + j) % 15 = j := by omega
  have e3 : (x * 10 + b) / 10 = x := by omega
  have e4 : (x * 10 + b) % 10 = b := by omega
  simp only [bitmap_ind16.pix16, dif_pos h, render, screen_pixel, e1, e2, e3, e4]

theorem video_ram_at_eq (dev : poly_vti_device) (i code : Nat)
    (h : mem_read dev.m_video_ram i = some code) : video_ram_at dev i = code := by
  simp only [video_ram_at, h, Option.getD_some]

theorem inRange_iff (offset base : Nat) :
    (offset &&& 0xfc00) >>> 10 = base ↔ inRange offset base = true := by
  rw [decode_eq]
  simp only [inRange, beq_iff_eq]

theorem smemr_r_total (dev : poly_vti_device) (offset : Nat) :
    ∃ byte, ∃ _h : localOffset offset < 1024, s100_smemr_r dev offset = some (byte, dev) := by
  unfold s100_smemr_r
  by_cases hin : (offset &&& 0xfc00) >>> 10 = dev.m_address
  · rw [if_pos hin, mem_read_some dev.m_video_ram (offset &&& 0x3ff) (and_3ff_lt offset)]
    exact ⟨_, and_3ff_lt offset, rfl⟩
  · rw [if_neg hin]
    exact ⟨_, and_3ff_lt offset, rfl⟩

set_option maxRecDepth 8192 in
theorem shift_index_0x41 : s_mcm6571a_shift[0xC1 &&& 0x7F]? = some 0 := by decide

set_option maxRecDepth 8192 in
theorem shift_index_1 : s_mcm6571a_shift[0x81 &&& 0x7F]? = some 1 := by decide

theorem zero_bit (n : Nat) : ((0 : Nat) >>> n) &&& 1 = 0 := by
  rw [Nat.zero_shiftRight, Nat.zero_and]

theorem font_line_noshift (dev : poly_vti_device) (code j : Nat)
    (hs : s_mcm6571a_shift[code]? = some 0) :
    font_line dev code j = if j < 9 then mem_read dev.m_FNT (code * 16 + j) else some 0 := by
  simp only [font_line, hs, Option.bind_eq_bind, Option.some_bind, if_true]

theorem font_line_shift (dev : poly_vti_device) (code j s : Nat)
    (hs : s_mcm6571a_shift[code]? = some s) (h0 : s ≠ 0) :
    font_line dev code j =
      if j > 2 ∧ j < 12 then mem_read dev.m_FNT (code * 16 + j - 3) else some 0 := by
  simp only [font_line, hs, Option.bind_eq_bind, Option.some_bind, if_neg h0]

theorem font_pix16 (dev : poly_vti_device) (x y j b code : Nat) (hx : x < 64) (hy : y < 16)
    (hj : j < 15) (hb : b < 10) (hcode : mem_read dev.m_video_ram (y * 64 + x) = some code)
    (h7 : code &&& 0x80 ≠ 0) :
    (render dev).pix16 (y * 15 + j) (x * 10 + b) =
      some (font_value dev (code &&& 0x7f) j b) := by
  rw [render_pix16 dev x y j b hx hy hj hb, video_ram_at_eq dev _ code hcode]
  simp only [cell_pixel, if_neg h7]

/-! ## Address decoder and video RAM store -/

/-- C1: for every bus offset, base and video RAM content, `s100_smemr_r` returns
`VideoMemory[offset & 0x3FF]` when `((offset >> 10) & 0x3F) == base` and 0xFF
otherwise; the test of the code is the `inRange` predicate of the specification
and the local offset is always below 1024. -/
theorem C1_memoryRead_decodes (dev : poly_vti_device) (offset : Nat) :
    ((offset &&& 0xfc00) >>> 10 = dev.m_address ↔ inRange offset dev.m_address = true) ∧
    ∃ h : localOffset offset < 1024,
      s100_smemr_r dev offset =
        some (if inRange offset dev.m_address = true
              then dev.m_video_ram ⟨localOffset offset, h⟩ else 0xFF, dev) := by
  refine ⟨inRange_iff offset dev.m_address, and_3ff_lt offset, ?_⟩
  unfold s100_smemr_r
  by_cases hin : (offset &&& 0xfc00) >>> 10 = dev.m_address
  · rw [if_pos hin, if_pos ((inRange_iff _ _).1 hin),
      mem_read_some dev.m_video_ram (offset &&& 0x3ff) (and_3ff_lt offset)]
    rfl
  · rw [if_neg hin, if_neg (fun h => hin ((inRange_iff _ _).2 h))]

/-- C2: for every base, every offset in range for it, every byte `v` and every
prior video RAM, `s100_mwrt_w offset v` followed by `s100_smemr_r offset`
returns `v`. -/
theorem C2_write_then_read (dev : poly_vti_device) (offset v : Nat)
    (hin : inRange offset dev.m_address = true) (hv : v < 256) :
    ∃ dev1, s100_mwrt_w dev offset v = some dev1 ∧
      s100_smemr_r dev1 offset = some (v, dev1) := by
  have hc := (inRange_iff offset dev.m_address).2 hin
  have hlt := and_3ff_lt offset
  have hv1 : v % 0x100 = v := Nat.mod_eq_of_lt hv
  refine ⟨{ dev with m_video_ram :=
      fun k => if k.val = offset &&& 0x3ff then v else dev.m_video_ram k }, ?_, ?_⟩
  · simp only [s100_mwrt_w, if_pos hc, mem_write, if_pos hlt, hv1, Option.map_some']
  · simp only [s100_smemr_r, if_pos hc, mem_read, dif_pos hlt, Option.map_some', if_true]

/-- C3: for every base, every offset that is not in range for it and every byte
`v`, `s100_mwrt_w offset v` leaves all 1024 bytes of the video RAM (indeed the
whole device) unchanged. -/
theorem C3_write_out_of_range (dev : poly_vti_device) (offset v : Nat)
    (hout : inRange offset dev.m_address = false) :
    ∃ dev1, s100_mwrt_w dev offset v = some dev1 ∧
      (∀ k : Fin 0x400, dev1.m_video_ram k = dev.m_video_ram k) ∧ dev1 = dev := by
  have hc : ¬ (offset &&& 0xfc00) >>> 10 = dev.m_address := by
    intro h
    rw [(inRange_iff _ _).1 h] at hout
    exact Bool.noConfusion hout
  exact ⟨dev, by simp only [s100_mwrt_w, if_neg hc], fun _ => rfl, rfl⟩

/-- C4: an in-range `s100_mwrt_w offset v` changes only the byte at local offset
`offset & 0x3FF` (every other byte, and every other part of the device, is as
before); `s100_smemr_r` never changes the device, so two consecutive reads of
the same offset return the same byte. -/
theorem C4_write_and_read_frame (dev : poly_vti_device) (offset v : Nat)
    (hin : inRange offset dev.m_address = true) :
    (∃ dev1, s100_mwrt_w dev offset v = some dev1 ∧
      (∀ k : Fin 0x400, k.val ≠ localOffset offset →
        dev1.m_video_ram k = dev.m_video_ram k) ∧
      dev1.m_address = dev.m_address ∧ dev1.m_FNT = dev.m_FNT ∧
      dev1.m_kbdlatch = dev.m_kbdlatch) ∧
    (∀ offset2, ∃ byte, s100_smemr_r dev offset2 = some (byte, dev) ∧
      (s100_smemr_r dev offset2).bind (fun res => s100_smemr_r res.2 offset2) =
        some (byte, dev)) := by
  have hc := (inRange_iff offset dev.m_address).2 hin
  have hlt := and_3ff_lt offset
  constructor
  · refine ⟨{ dev with m_video_ram :=
        fun k => if k.val = offset &&& 0x3ff then v % 0x100 else dev.m_video_ram k },
      ?_, ?_, rfl, rfl, rfl⟩
    · simp only [s100_mwrt_w, if_pos hc, mem_write, if_pos hlt, Option.map_some']
    · intro k hk
      exact if_neg hk
  · intro offset2
    obtain ⟨_, h2, hr⟩ := smemr_r_total dev offset2
    exact ⟨_, hr, by rw [hr, Option.some_bind, hr]⟩

/-- Witness of C2: the card at F800-FBFF, offset 0xF805, byte 0x41. -/
theorem C2_write_then_read_witness :
    inRange 0xF805 (sample_device 0 0).m_address = true ∧ 0x41 < 256 ∧
    ∃ dev1, s100_mwrt_w (sample_device 0 0) 0xF805 0x41 = some dev1 ∧
      s100_smemr_r dev1 0xF805 = some (0x41, dev1) :=
  ⟨by decide, by decide,
    C2_write_then_read (sample_device 0 0) 0xF805 0x41 (by decide) (by decide)⟩

/-- Witness of C3: the card at F800-FBFF, offset 0x1234 (window 4). -/
theorem C3_write_out_of_range_witness :
    inRange 0x1234 (sample_device 7 0).m_address = false ∧
    ∃ dev1, s100_mwrt_w (sample_device 7 0) 0x1234 0x41 = some dev1 ∧
      (∀ k : Fin 0x400, dev1.m_video_ram k = (sample_device 7 0).m_video_ram k) ∧
      dev1 = sample_device 7 0 :=
  ⟨by decide, C3_write_out_of_range (sample_device 7 0) 0x1234 0x41 (by decide)⟩

/-- Witness of C4: the card at F800-FBFF, offset 0xFBFF, byte 0x41. -/
theorem C4_write_and_read_frame_witness :
    inRange 0xFBFF (sample_device 7 0).m_address = true ∧
    ((∃ dev1, s100_mwrt_w (sample_device 7 0) 0xFBFF 0x41 = some dev1 ∧
      (∀ k : Fin 0x400, k.val ≠ localOffset 0xFBFF →
        dev1.m_video_ram k = (sample_device 7 0).m_video_ram k) ∧
      dev1.m_address = (sample_device 7 0).m_address ∧
      dev1.m_FNT = (sample_device 7 0).m_FNT ∧
      dev1.m_kbdlatch = (sample_device 7 0).m_kbdlatch) ∧
    (∀ offset2, ∃ byte, s100_smemr_r (sample_device 7 0) offset2 =
        some (byte, sample_device 7 0) ∧
      (s100_smemr_r (sample_device 7 0) offset2).bind
        (fun res => s100_smemr_r res.2 offset2) = some (byte, sample_device 7 0))) :=
  ⟨by decide, C4_write_and_read_frame (sample_device 7 0) 0xFBFF 0x41 (by decide)⟩

/-! ## Keyboard latch -/

/-- C5 fails as stated at `X = 0`: with 0x41 in the latch, `kbd_put 0` followed
by an in-window `s100_sinp_r` returns 0x41, not 0 (byte 0 is not 8, so the claim
promises 0). -/
theorem C5_deliver_zero_counterexample :
    (0 : Nat) < 256 ∧ (0 : Nat) ≠ 8 ∧
    inRange 0xF800 (kbd_put (sample_device 0 0x41) 0).m_address = true ∧
    (s100_sinp_r (kbd_put (sample_device 0 0x41) 0) 0xF800).1 = 0x41 ∧
    (s100_sinp_r (kbd_put (sample_device 0 0x41) 0) 0xF800).1 ≠ 0 := by
  decide

/-- C5 (amended): for every prior latch content, `kbd_put 8` followed by an
in-window `s100_sinp_r` returns 127, and for every byte `X` other than 8 and
other than 0, `kbd_put X` followed by an in-window `s100_sinp_r` returns `X`;
so the latest non-zero delivery overwrites the previously latched value, also
when that value came from an earlier delivery `X0` that was never read. -/
theorem C5_deliver_then_read (dev : poly_vti_device) (X0 X offset : Nat) (hX : X < 256)
    (h0 : X ≠ 0) (hin : inRange offset dev.m_address = true) :
    (s100_sinp_r (kbd_put dev X) offset).1 = (if X = 8 then 127 else X) ∧
    (s100_sinp_r (kbd_put (kbd_put dev X0) X) offset).1 = (if X = 8 then 127 else X) := by
  have key : ∀ d : poly_vti_device, inRange offset d.m_address = true →
      (s100_sinp_r (kbd_put d X) offset).1 = (if X = 8 then 127 else X) := by
    intro d hd
    have hc := (inRange_iff offset d.m_address).2 hd
    have hX1 : X % 0x100 = X := Nat.mod_eq_of_lt hX
    have hlt : (if X = 8 then 127 else X) % 0x100 = (if X = 8 then 127 else X) := by
      by_cases h8 : X = 8
      · rw [if_pos h8]
      · rw [if_neg h8]; exact hX1
    simp only [kbd_put, hX1, ne_eq, h0, not_false_eq_true, if_true, s100_sinp_r, if_pos hc,
      i8212_device.read, i8212_device.strobe, hlt]
  refine ⟨key dev hin, key (kbd_put dev X0) ?_⟩
  have ha : (kbd_put dev X0).m_address = dev.m_address := by
    unfold kbd_put
    by_cases hz : X0 % 0x100 ≠ 0
    · simp only [if_pos hz]
    · simp only [if_neg hz]
  rw [ha]
  exact hin

/-- Witness of C5 (amended): 0x41 in the latch, then deliveries of 0x42 and of 8. -/
theorem C5_deliver_then_read_witness :
    (8 : Nat) < 256 ∧ (8 : Nat) ≠ 0 ∧ inRange 0xF800 (sample_device 0 0x41).m_address = true ∧
    (s100_sinp_r (kbd_put (sample_device 0 0x41) 8) 0xF800).1 = (if 8 = 8 then 127 else 8) ∧
    (s100_sinp_r (kbd_put (kbd_put (sample_device 0 0x41) 0x42) 8) 0xF800).1 =
      (if 8 = 8 then 127 else 8) :=
  ⟨by decide, by decide, by decide,
    C5_deliver_then_read (sample_device 0 0x41) 0x42 8 0xF800 (by decide) (by decide)
      (by decide)⟩

/-! ## Raster renderer -/

/-- C6: segment mode. For every cell (column `x` < 64, row `y` < 16) whose stored
byte `code = VideoMemory[y*64+x]` has bit 7 clear, for every `j` < 15 and
`b` < 10, the pixel at `(y*15+j, x*10+b)` is 1 exactly when the bit of `code`
selected by `(l = j/5, r = b/5)` is 0, with `(0,0)`→bit 5, `(0,1)`→bit 2,
`(1,0)`→bit 4, `(1,1)`→bit 1, `(2,0)`→bit 3, `(2,1)`→bit 0. In particular for
code 0x20 the pixels of band `(0,0)` are all 0 and for code 0x00 they are all 1. -/
theorem C6_segment_mode (dev : poly_vti_device) (bitmap : bitmap_ind16) (x y code : Nat)
    (hx : x < 64) (hy : y < 16) (hcode : mem_read dev.m_video_ram (y * 64 + x) = some code)
    (h7 : code &&& 0x80 = 0) :
    ∃ out, screen_update dev bitmap = some out ∧
      (∀ j b, j < 15 → b < 10 →
        out.2.2.pix16 (y * 15 + j) (x * 10 + b) =
          some (if BIT code (segmentBit (j / 5) (b / 5)) = 0 then 1 else 0)) ∧
      (segmentBit 0 0 = 5 ∧ segmentBit 0 1 = 2 ∧ segmentBit 1 0 = 4 ∧
        segmentBit 1 1 = 1 ∧ segmentBit 2 0 = 3 ∧ segmentBit 2 1 = 0) ∧
      (code = 0x20 → ∀ j b, j < 5 → b < 5 →
        out.2.2.pix16 (y * 15 + j) (x * 10 + b) = some 0) ∧
      (code = 0x00 → ∀ j b, j < 5 → b < 5 →
        out.2.2.pix16 (y * 15 + j) (x * 10 + b) = some 1) := by
  have hpix : ∀ j b, j < 15 → b < 10 →
      (render dev).pix16 (y * 15 + j) (x * 10 + b) =
        some (if BIT code (segmentBit (j / 5) (b / 5)) = 0 then 1 else 0) := by
    intro j b hj hb
    rw [render_pix16 dev x y j b hx hy hj hb, video_ram_at_eq dev _ code hcode]
    simp only [cell_pixel, if_pos h7, segment_value, ne_eq, ite_not]
  refine ⟨(0, dev, render dev), screen_update_eq dev bitmap, hpix,
    ⟨rfl, rfl, rfl, rfl, rfl, rfl⟩, ?_, ?_⟩
  · intro hc j b hj hb
    have hl : j / 5 = 0 := by omega
    have hr : b / 5 = 0 := by omega
    rw [hpix j b (by omega) (by omega), hl, hr, hc]
    rfl
  · intro hc j b hj hb
    have hl : j / 5 = 0 := by omega
    have hr : b / 5 = 0 := by omega
    rw [hpix j b (by omega) (by omega), hl, hr, hc]
    rfl

/-- Witness of C6: cell (3, 2) of a screen filled with the segment code 0x20. -/
theorem C6_segment_mode_witness :
    3 < 64 ∧ 2 < 16 ∧ mem_read (sample_device 0x20 0).m_video_ram (2 * 64 + 3) = some 0x20 ∧
    0x20 &&& 0x80 = 0 ∧
    ∃ out, screen_update (sample_device 0x20 0) blank_bitmap = some out ∧
      (∀ j b, j < 15 → b < 10 →
        out.2.2.pix16 (2 * 15 + j) (3 * 10 + b) =
          some (if BIT 0x20 (segmentBit (j / 5) (b / 5)) = 0 then 1 else 0)) ∧
      (segmentBit 0 0 = 5 ∧ segmentBit 0 1 = 2 ∧ segmentBit 1 0 = 4 ∧
        segmentBit 1 1 = 1 ∧ segmentBit 2 0 = 3 ∧ segmentBit 2 1 = 0) ∧
      (0x20 = 0x20 → ∀ j b, j < 5 → b < 5 →
        out.2.2.pix16 (2 * 15 + j) (3 * 10 + b) = some 0) ∧
      (0x20 = 0x00 → ∀ j b, j < 5 → b < 5 →
        out.2.2.pix16 (2 * 15 + j) (3 * 10 + b) = some 1) :=
  ⟨by decide, by decide, by decide, by decide,
    C6_segment_mode (sample_device 0x20 0) blank_bitmap 3 2 0x20 (by decide) (by decide)
      (by decide) (by decide)⟩

/-- C7: font mode without shift. For every cell whose stored byte has bit 7 set
and whose font index `c = byte & 0x7F` has `ShiftTable[c] = 0`, for every row
`j` in 0..8 and column `b` in 0..6 the pixel at `(y*15+j, x*10+b)` equals
`(FNT[c*16 + j] >> (6-b)) & 1`, and every pixel of rows 9..14 of the cell is 0.
The table entry for index 0x41 (stored byte 0xC1) is 0. -/
theorem C7_font_mode_no_shift (dev : poly_vti_device) (bitmap : bitmap_ind16) (x y code : Nat)
    (hx : x < 64) (hy : y < 16) (hcode : mem_read dev.m_video_ram (y * 64 + x) = some code)
    (h7 : code &&& 0x80 ≠ 0) (hs : s_mcm6571a_shift[code &&& 0x7F]? = some 0) :
    ∃ out, screen_update dev bitmap = some out ∧
      (∀ j b, j < 9 → b < 7 →
        ∃ fb, mem_read dev.m_FNT ((code &&& 0x7F) * 16 + j) = some fb ∧
          out.2.2.pix16 (y * 15 + j) (x * 10 + b) = some ((fb >>> (6 - b)) &&& 1)) ∧
      (∀ j b, 9 ≤ j → j < 15 → b < 10 →
        out.2.2.pix16 (y * 15 + j) (x * 10 + b) = some 0) ∧
      s_mcm6571a_shift[0xC1 &&& 0x7F]? = some 0 ∧ 0xC1 &&& 0x7F = 0x41 := by
  have hc := and_7f_lt code
  refine ⟨(0, dev, render dev), screen_update_eq dev bitmap, ?_, ?_, shift_index_0x41, rfl⟩
  · intro j b hj hb
    have hrd := mem_read_some dev.m_FNT ((code &&& 0x7F) * 16 + j) (by omega)
    refine ⟨_, hrd, ?_⟩
    rw [font_pix16 dev x y j b code hx hy (by omega) (by omega) hcode h7]
    simp only [font_value, font_line_noshift dev _ j hs, if_pos hj, if_pos hb, hrd,
      Option.getD_some]
  · intro j b hj9 hj hb
    rw [font_pix16 dev x y j b code hx hy hj hb hcode h7]
    simp only [font_value, font_line_noshift dev _ j hs, if_neg (Nat.not_lt.2 hj9),
      Option.getD_some, zero_bit, ite_self]

/-- Witness of C7: cell (3, 2) of a screen filled with the byte 0xC1 (font index
0x41, whose shift table entry is 0). -/
theorem C7_font_mode_no_shift_witness :
    3 < 64 ∧ 2 < 16 ∧ mem_read (sample_device 0xC1 0).m_video_ram (2 * 64 + 3) = some 0xC1 ∧
    0xC1 &&& 0x80 ≠ 0 ∧ s_mcm6571a_shift[0xC1 &&& 0x7F]? = some 0 ∧
    ∃ out, screen_update (sample_device 0xC1 0) blank_bitmap = some out ∧
      (∀ j b, j < 9 → b < 7 →
        ∃ fb, mem_read (sample_device 0xC1 0).m_FNT ((0xC1 &&& 0x7F) * 16 + j) = some fb ∧
          out.2.2.pix16 (2 * 15 + j) (3 * 10 + b) = some ((fb >>> (6 - b)) &&& 1)) ∧
      (∀ j b, 9 ≤ j → j < 15 → b < 10 →
        out.2.2.pix16 (2 * 15 + j) (3 * 10 + b) = some 0) ∧
      s_mcm6571a_shift[0xC1 &&& 0x7F]? = some 0 ∧ 0xC1 &&& 0x7F = 0x41 :=
  ⟨by decide, by decide, by decide, by decide, shift_index_0x41,
    C7_font_mode_no_shift (sample_device 0xC1 0) blank_bitmap 3 2 0xC1 (by decide) (by decide)
      (by decide) (by decide) shift_index_0x41⟩

/-- C8: font mode with shift. For every cell whose stored byte has bit 7 set and
whose font index `c = byte & 0x7F` has `ShiftTable[c] = 1`, for every row `j` in
3..11 and column `b` in 0..6 the pixel at `(y*15+j, x*10+b)` equals
`(FNT[c*16 + j - 3] >> (6-b)) & 1`, and every pixel of rows 0..2 and 12..14 of
the cell is 0. -/
theorem C8_font_mode_shift (dev : poly_vti_device) (bitmap : bitmap_ind16) (x y code : Nat)
    (hx : x < 64) (hy : y < 16) (hcode : mem_read dev.m_video_ram (y * 64 + x) = some code)
    (h7 : code &&& 0x80 ≠ 0) (hs : s_mcm6571a_shift[code &&& 0x7F]? = some 1) :
    ∃ out, screen_update dev bitmap = some out ∧
      (∀ j b, 3 ≤ j → j ≤ 11 → b < 7 →
        ∃ fb, mem_read dev.m_FNT ((code &&& 0x7F) * 16 + j - 3) = some fb ∧
          out.2.2.pix16 (y * 15 + j) (x * 10 + b) = some ((fb >>> (6 - b)) &&& 1)) ∧
      (∀ j b, (j < 3 ∨ (12 ≤ j ∧ j < 15)) → b < 10 →
        out.2.2.pix16 (y * 15 + j) (x * 10 + b) = some 0) := by
  have hc := and_7f_lt code
  have hline := fun j => font_line_shift dev (code &&& 0x7F) j 1 hs (by decide)
  refine ⟨(0, dev, render dev), screen_update_eq dev bitmap, ?_, ?_⟩
  · intro j b hj3 hj11 hb
    have hrd := mem_read_some dev.m_FNT ((code &&& 0x7F) * 16 + j - 3) (by omega)
    refine ⟨_, hrd, ?_⟩
    rw [font_pix16 dev x y j b code hx hy (by omega) (by omega) hcode h7]
    simp only [font_value, hline j, if_pos (show j > 2 ∧ j < 12 by omega), if_pos hb, hrd,
      Option.getD_some]
  · intro j b hj hb
    rw [font_pix16 dev x y j b code hx hy (by omega) hb hcode h7]
    simp only [font_value, hline j, if_neg (show ¬ (j > 2 ∧ j < 12) by omega),
      Option.getD_some, zero_bit, ite_self]

/-- Witness of C8: cell (3, 2) of a screen filled with the byte 0x81 (font index
1, whose shift table entry is 1). -/
theorem C8_font_mode_shift_witness :
    3 < 64 ∧ 2 < 16 ∧ mem_read (sample_device 0x81 0).m_video_ram (2 * 64 + 3) = some 0x81 ∧
    0x81 &&& 0x80 ≠ 0 ∧ s_mcm6571a_shift[0x81 &&& 0x7F]? = some 1 ∧
    ∃ out, screen_update (sample_device 0x81 0) blank_bitmap = some out ∧
      (∀ j b, 3 ≤ j → j ≤ 11 → b < 7 →
        ∃ fb, mem_read (sample_device 0x81 0).m_FNT ((0x81 &&& 0x7F) * 16 + j - 3) = some fb ∧
          out.2.2.pix16 (2 * 15 + j) (3 * 10 + b) = some ((fb >>> (6 - b)) &&& 1)) ∧
      (∀ j b, (j < 3 ∨ (12 ≤ j ∧ j < 15)) → b < 10 →
        out.2.2.pix16 (2 * 15 + j) (3 * 10 + b) = some 0) :=
  ⟨by decide, by decide, by decide, by decide, shift_index_1,
    C8_font_mode_shift (sample_device 0x81 0) blank_bitmap 3 2 0x81 (by decide) (by decide)
      (by decide) (by decide) shift_index_1⟩

/-- C9 fails as stated in segment mode: with an all-zero video RAM, cell (0, 0)
is in segment mode (bit 7 of 0x00 is clear) and the pixel in row 0, column 7 of
the rendered bitmap is 1, not 0. -/
theorem C9_segment_spacing_counterexample :
    mem_read (sample_device 0 0).m_video_ram (0 * 64 + 0) = some 0 ∧ 0 &&& 0x80 = 0 ∧
    (screen_update (sample_device 0 0) blank_bitmap).map
      (fun out => out.2.2.pix16 (0 * 15 + 0) (0 * 10 + 7)) = some (some 1) := by
  refine ⟨by decide, by decide, ?_⟩
  rw [screen_update_eq, Option.map_some']
  exact congrArg some (by
    rw [render_pix16 (sample_device 0 0) 0 0 0 7 (by decide) (by decide) (by decide)
      (by decide)]
    decide)

/-- C9 (amended): for every video RAM content and every cell `(x, y)` whose stored
byte selects font mode (bit 7 set), every pixel in rows 0..14 and columns 7..9 of
the cell is 0. In a cell in segment mode (bit 7 clear) those columns belong to
the right half `r = 1`: the pixel is 1 exactly when the bit selected by
`(j/5, 1)` is 0. -/
theorem C9_spacing_by_mode (dev : poly_vti_device) (bitmap : bitmap_ind16) (x y code : Nat)
    (hx : x < 64) (hy : y < 16) (hcode : mem_read dev.m_video_ram (y * 64 + x) = some code) :
    ∃ out, screen_update dev bitmap = some out ∧
      (code &&& 0x80 ≠ 0 → ∀ j b, j < 15 → 7 ≤ b → b < 10 →
        out.2.2.pix16 (y * 15 + j) (x * 10 + b) = some 0) ∧
      (code &&& 0x80 = 0 → ∀ j b, j < 15 → 7 ≤ b → b < 10 →
        out.2.2.pix16 (y * 15 + j) (x * 10 + b) =
          some (if BIT code (segmentBit (j / 5) 1) = 0 then 1 else 0)) := by
  refine ⟨(0, dev, render dev), screen_update_eq dev bitmap, ?_, ?_⟩
  · intro h7 j b hj hb7 hb
    rw [font_pix16 dev x y j b code hx hy hj hb hcode h7]
    simp only [font_value, if_neg (Nat.not_lt.2 hb7)]
  · intro h7 j b hj hb7 hb
    have hr : b / 5 = 1 := by omega
    rw [render_pix16 dev x y j b hx hy hj hb, video_ram_at_eq dev _ code hcode]
    simp only [cell_pixel, if_pos h7, segment_value, ne_eq, ite_not, hr]

/-- Witness of C9 (amended): cell (3, 2) of a screen filled with the byte 0xC1. -/
theorem C9_spacing_by_mode_witness :
    3 < 64 ∧ 2 < 16 ∧ mem_read (sample_device 0xC1 0).m_video_ram (2 * 64 + 3) = some 0xC1 ∧
    ∃ out, screen_update (sample_device 0xC1 0) blank_bitmap = some out ∧
      (0xC1 &&& 0x80 ≠ 0 → ∀ j b, j < 15 → 7 ≤ b → b < 10 →
        out.2.2.pix16 (2 * 15 + j) (3 * 10 + b) = some 0) ∧
      (0xC1 &&& 0x80 = 0 → ∀ j b, j < 15 → 7 ≤ b → b < 10 →
        out.2.2.pix16 (2 * 15 + j) (3 * 10 + b) =
          some (if BIT 0xC1 (segmentBit (j / 5) 1) = 0 then 1 else 0)) :=
  ⟨by decide, by decide, by decide,
    C9_spacing_by_mode (sample_device 0xC1 0) blank_bitmap 3 2 0xC1 (by decide) (by decide)
      (by decide)⟩

/-- C10: `screen_update` assigns every pixel of the 640x240 canvas: for every
video RAM and font ROM there is one bitmap `out` that is the result for every
initial bitmap, it does not depend on the address switches or the keyboard
latch, the device (its video RAM included) is returned unchanged, and rendering
a second time on the result of the first gives the same bitmap again. -/
theorem C10_renderer_pure (dev : poly_vti_device) :
    ∃ out : bitmap_ind16, ∀ (bitmap1 bitmap2 : bitmap_ind16) (address : Nat)
        (latch : i8212_device),
      screen_update dev bitmap1 = some (0, dev, out) ∧
      screen_update dev bitmap2 = some (0, dev, out) ∧
      screen_update { dev with m_address := address, m_kbdlatch := latch } bitmap1 =
        some (0, { dev with m_address := address, m_kbdlatch := latch }, out) ∧
      (screen_update dev bitmap1).bind (fun res => screen_update res.2.1 res.2.2) =
        some (0, dev, out) := by
  refine ⟨render dev, fun bitmap1 bitmap2 address latch => ⟨screen_update_eq dev bitmap1,
    screen_update_eq dev bitmap2, ?_, ?_⟩⟩
  · rw [screen_update_eq]
    rfl
  · rw [screen_update_eq, Option.some_bind, screen_update_eq]

/-! ## Keyboard latch, address window and start-up -/

theorem shr_10_and_3f (offset : Nat) : (offset >>> 10) &&& 0x3F = offset / 1024 % 64 := by
  rw [Nat.shiftRight_eq_div_pow]
  exact Nat.and_pow_two_sub_one_eq_mod (offset / 2 ^ 10) 6

theorem inRange_iff_range (offset b : Nat) (hb : b < 64) (ho : offset < 0x10000) :
    inRange offset b = true ↔ b * 0x400 ≤ offset ∧ offset ≤ b * 0x400 + 0x3FF := by
  simp only [inRange, beq_iff_eq, shr_10_and_3f]
  omega

theorem dip_settings_values : address_dip_settings.map Prod.fst = List.range 64 := by
  decide

theorem dip_settings_ranges :
    ∀ e ∈ address_dip_settings, e.2.1 = e.1 * 0x400 ∧ e.2.2 = e.1 * 0x400 + 0x3FF := by
  decide

theorem dip_setting_mem (b : Nat) (hb : b < 64) :
    (b, b * 0x400, b * 0x400 + 0x3FF) ∈ address_dip_settings := by
  have h1 : b ∈ address_dip_settings.map Prod.fst := by
    rw [dip_settings_values]
    exact List.mem_range.2 hb
  obtain ⟨e, he, hfst⟩ := List.mem_map.1 h1
  have h2 := dip_settings_ranges e he
  have he2 : e = (b, b * 0x400, b * 0x400 + 0x3FF) := by
    rw [← hfst]
    exact Prod.ext rfl (Prod.ext h2.1 h2.2)
  rw [← he2]
  exact he

/-- C13: `s100_sinp_r` returns 0xFF for every offset with
`((offset >> 10) & 0x3F) != base`; for every in-window offset it returns the
currently latched key byte and leaves the device, the latched byte included,
unchanged, so two consecutive in-window reads return the same value. -/
theorem C13_inputRead_window (dev : poly_vti_device) (offset : Nat) :
    s100_sinp_r dev offset =
      (if inRange offset dev.m_address = true then dev.m_kbdlatch.m_data else 0xFF, dev) ∧
    (s100_sinp_r dev offset).2.m_kbdlatch.m_data = dev.m_kbdlatch.m_data ∧
    (s100_sinp_r (s100_sinp_r dev offset).2 offset).1 = (s100_sinp_r dev offset).1 := by
  have h : s100_sinp_r dev offset =
      (if inRange offset dev.m_address = true then dev.m_kbdlatch.m_data else 0xFF, dev) := by
    unfold s100_sinp_r
    by_cases hin : (offset &&& 0xfc00) >>> 10 = dev.m_address
    · rw [if_pos hin, if_pos ((inRange_iff _ _).1 hin)]
      rfl
    · rw [if_neg hin, if_neg (fun h => hin ((inRange_iff _ _).2 h))]
  refine ⟨h, ?_, ?_⟩
  · rw [h]
  · rw [h]
    show (s100_sinp_r dev offset).1 = _
    rw [h]

/-- C14: for every base `b` in 0..63 and every 16-bit offset, the offset is in
range for `b` exactly when `b*0x400 <= offset <= b*0x400 + 0x3FF`, which is the
range printed on the DIP-switch setting for `b`; consequently every 16-bit
offset is claimed by exactly one of the 64 base values. -/
theorem C14_window_is_aligned_range (b offset : Nat) (hb : b < 64) (ho : offset < 0x10000) :
    (inRange offset b = true ↔ b * 0x400 ≤ offset ∧ offset ≤ b * 0x400 + 0x3FF) ∧
    ((offset &&& 0xfc00) >>> 10 = b ↔ b * 0x400 ≤ offset ∧ offset ≤ b * 0x400 + 0x3FF) ∧
    (b, b * 0x400, b * 0x400 + 0x3FF) ∈ address_dip_settings ∧
    (0x3E, 0xF800, 0xFBFF) ∈ address_dip_settings ∧
    ∃ b0, b0 < 64 ∧ inRange offset b0 = true ∧
      ∀ b1, b1 < 64 → inRange offset b1 = true → b1 = b0 := by
  refine ⟨inRange_iff_range offset b hb ho,
    (inRange_iff offset b).trans (inRange_iff_range offset b hb ho),
    dip_setting_mem b hb, dip_setting_mem 0x3E (by decide), offset / 1024, by omega, ?_, ?_⟩
  · exact (inRange_iff_range offset (offset / 1024) (by omega) ho).2 (by omega)
  · intro b1 hb1 h1
    have := (inRange_iff_range offset b1 hb1 ho).1 h1
    omega

/-- Witness of C14: base 0x3E (F800-FBFF) and offset 0xF805. -/
theorem C14_window_is_aligned_range_witness :
    0x3E < 64 ∧ 0xF805 < 0x10000 ∧
    ((inRange 0xF805 0x3E = true ↔ 0x3E * 0x400 ≤ 0xF805 ∧ 0xF805 ≤ 0x3E * 0x400 + 0x3FF) ∧
    ((0xF805 &&& 0xfc00) >>> 10 = 0x3E ↔
      0x3E * 0x400 ≤ 0xF805 ∧ 0xF805 ≤ 0x3E * 0x400 + 0x3FF) ∧
    (0x3E, 0x3E * 0x400, 0x3E * 0x400 + 0x3FF) ∈ address_dip_settings ∧
    (0x3E, 0xF800, 0xFBFF) ∈ address_dip_settings ∧
    ∃ b0, b0 < 64 ∧ inRange 0xF805 b0 = true ∧
      ∀ b1, b1 < 64 → inRange 0xF805 b1 = true → b1 = b0) :=
  ⟨by decide, by decide, C14_window_is_aligned_range 0x3E 0xF805 (by decide) (by decide)⟩

/-- C15: immediately after `device_start`, with no intervening write,
`s100_smemr_r` returns 0 for every in-window offset, and each of the 1024 bytes
of the video RAM is 0. -/
theorem C15_zero_initialized (dev : poly_vti_device) (offset : Nat)
    (hin : inRange offset (device_start dev).m_address = true) :
    s100_smemr_r (device_start dev) offset = some (0, device_start dev) ∧
    ∀ k : Fin 0x400, (device_start dev).m_video_ram k = 0 := by
  have hc := (inRange_iff offset (device_start dev).m_address).2 hin
  refine ⟨?_, fun _ => rfl⟩
  unfold s100_smemr_r
  rw [if_pos hc, mem_read_some _ (offset &&& 0x3ff) (and_3ff_lt offset)]
  rfl

/-- Witness of C15: the card at F800-FBFF, started over a video RAM filled with
0x55, read at offset 0xFBFF. -/
theorem C15_zero_initialized_witness :
    inRange 0xFBFF (device_start (sample_device 0x55 0)).m_address = true ∧
    (s100_smemr_r (device_start (sample_device 0x55 0)) 0xFBFF =
      some (0, device_start (sample_device 0x55 0)) ∧
    ∀ k : Fin 0x400, (device_start (sample_device 0x55 0)).m_video_ram k = 0) :=
  ⟨by decide, C15_zero_initialized (sample_device 0x55 0) 0xFBFF (by decide)⟩

/-- C20: `kbd_put` with data byte 0 does not strobe the keyboard latch: the
device is returned as it was, so the next in-window `s100_sinp_r` returns the
same value as before the call. For every non-zero data byte the latch is
strobed exactly once, with 127 if the byte is 8 and with the byte itself
otherwise. -/
theorem C20_kbd_put_zero_ignored (dev : poly_vti_device) (data offset : Nat)
    (hd : data < 256) (h0 : data ≠ 0) :
    kbd_put dev 0 = dev ∧
    (kbd_put dev 0).m_kbdlatch = dev.m_kbdlatch ∧
    s100_sinp_r (kbd_put dev 0) offset = s100_sinp_r dev offset ∧
    kbd_put dev data =
      { dev with m_kbdlatch := dev.m_kbdlatch.strobe (if data = 8 then 127 else data) } := by
  refine ⟨rfl, rfl, rfl, ?_⟩
  have hd1 : data % 0x100 = data := Nat.mod_eq_of_lt hd
  simp only [kbd_put, hd1, ne_eq, h0, not_false_eq_true, if_true]

/-- Witness of C20: 0x41 in the latch, data byte 8. -/
theorem C20_kbd_put_zero_ignored_witness :
    (8 : Nat) < 256 ∧ (8 : Nat) ≠ 0 ∧
    (kbd_put (sample_device 0 0x41) 0 = sample_device 0 0x41 ∧
    (kbd_put (sample_device 0 0x41) 0).m_kbdlatch = (sample_device 0 0x41).m_kbdlatch ∧
    s100_sinp_r (kbd_put (sample_device 0 0x41) 0) 0xF800 =
      s100_sinp_r (sample_device 0 0x41) 0xF800 ∧
    kbd_put (sample_device 0 0x41) 8 =
      { sample_device 0 0x41 with
        m_kbdlatch := (sample_device 0 0x41).m_kbdlatch.strobe (if 8 = 8 then 127 else 8) }) :=
  ⟨by decide, by decide,
    C20_kbd_put_zero_ignored (sample_device 0 0x41) 8 0xF800 (by decide) (by decide)⟩

/-! ## Renderer: bounds, locality and the unused bit -/

theorem shr_and_one (x n : Nat) : (x >>> n) &&& 1 = (x.testBit n).toNat := by
  rw [Nat.and_one_is_mod, Nat.shiftRight_eq_div_pow, Nat.toNat_testBit]

theorem and_0x80_eq_zero_iff (c : Nat) : c &&& 0x80 = 0 ↔ c.testBit 7 = false := by
  have h128 : (0x80 : Nat) = 2 ^ 7 := by decide
  constructor
  · intro h
    have h7 := congrArg (fun v => Nat.testBit v 7) h
    simp only [Nat.testBit_and, h128, Nat.testBit_two_pow_self, Bool.and_true,
      Nat.zero_testBit] at h7
    exact h7
  · intro h
    apply Nat.eq_of_testBit_eq
    intro i
    rw [Nat.testBit_and, h128, Nat.testBit_two_pow, Nat.zero_testBit]
    by_cases hi : 7 = i
    · subst hi
      rw [h, Bool.false_and]
    · rw [decide_eq_false hi, Bool.and_false]

theorem testBit_xor_0x40 (c n : Nat) (hn : n ≠ 6) :
    (c ^^^ 0x40).testBit n = c.testBit n := by
  have h64 : (0x40 : Nat) = 2 ^ 6 := by decide
  rw [Nat.testBit_xor, h64, Nat.testBit_two_pow, decide_eq_false (fun h => hn h.symm),
    Bool.xor_false]

theorem segmentBit_le (l r : Nat) : segmentBit l r ≤ 5 := by
  unfold segmentBit
  split <;> decide

theorem cell_pixel_font (dev1 dev2 : poly_vti_device) (hF : dev1.m_FNT = dev2.m_FNT) :
    cell_pixel dev1 = cell_pixel dev2 := by
  funext code j b
  simp only [cell_pixel, font_value, font_line, hF]

theorem render_pix16_any (dev : poly_vti_device) (py px : Nat) (hpy : py < 240)
    (hpx : px < 640) :
    (render dev).pix16 py px =
      some (cell_pixel dev (video_ram_at dev (py / 15 * 64 + px / 10)) (py % 15) (px % 10)) := by
  simp only [bitmap_ind16.pix16, dif_pos (And.intro hpy hpx), render, screen_pixel]

/-- C16: all indexing is in bounds for every input. The local offset
`offset & 0x3FF` is below 1024 and `s100_smemr_r`, `s100_mwrt_w` and
`screen_update`, whose array accesses all return `none` out of bounds, never
fail. In `screen_update` every video RAM index `y*64+x` is below 1024, every
shift-table index `code & 0x7F` is below 128 (the length of the table), every
font index `code*16 + j` (`j <= 8`) and `code*16 + j - 3` (`3 <= j <= 11`) is
below 2048, and every pixel coordinate has row < 240 and column < 640. -/
theorem C16_indexing_in_bounds (dev : poly_vti_device) (bitmap : bitmap_ind16)
    (offset data code : Nat) (y : Fin 16) (x : Fin 64) (j : Fin 15) (b : Fin 10) :
    localOffset offset < 1024 ∧
    (s100_smemr_r dev offset).isSome = true ∧
    (s100_mwrt_w dev offset data).isSome = true ∧
    (screen_update dev bitmap).isSome = true ∧
    (y.val * 64) % 0x10000 + x.val < 1024 ∧
    (mem_read dev.m_video_ram ((y.val * 64) % 0x10000 + x.val)).isSome = true ∧
    code &&& 0x7f < 128 ∧ s_mcm6571a_shift.length = 128 ∧
    (s_mcm6571a_shift[code &&& 0x7f]?).isSome = true ∧
    (∀ j1 : Fin 9, (code &&& 0x7f) * 16 + j1.val < 2048 ∧
      (mem_read dev.m_FNT ((code &&& 0x7f) * 16 + j1.val)).isSome = true) ∧
    (∀ j1 : Fin 9, (code &&& 0x7f) * 16 + (j1.val + 3) - 3 < 2048 ∧
      (mem_read dev.m_FNT ((code &&& 0x7f) * 16 + (j1.val + 3) - 3)).isSome = true) ∧
    (font_line dev (code &&& 0x7f) j.val).isSome = true ∧
    y.val * 15 + j.val < 240 ∧ x.val * 10 + b.val < 640 ∧
    (bitmap.set_pix16 (y.val * 15 + j.val) (x.val * 10 + b.val) 0).isSome = true := by
  have hy := y.isLt
  have hx := x.isLt
  have hj := j.isLt
  have hb := b.isLt
  have hc := and_7f_lt code
  have hidx : (y.val * 64) % 0x10000 + x.val < 1024 := by omega
  obtain ⟨byte, _, hrd⟩ := smemr_r_total dev offset
  obtain ⟨sh, hsh⟩ := shift_lookup (code &&& 0x7f) hc
  obtain ⟨l, hl⟩ := font_line_some dev (code &&& 0x7f) j.val hc
  refine ⟨and_3ff_lt offset, by rw [hrd]; rfl, ?_, by rw [screen_update_eq]; rfl, hidx,
    by rw [mem_read_some _ _ hidx]; rfl, hc, shift_length, by rw [hsh]; rfl, ?_, ?_,
    by rw [hl]; rfl, by omega, by omega, ?_⟩
  · unfold s100_mwrt_w
    by_cases hin : (offset &&& 0xfc00) >>> 10 = dev.m_address
    · simp only [if_pos hin, mem_write, if_pos (and_3ff_lt offset), Option.map_some',
        Option.isSome_some]
    · simp only [if_neg hin, Option.isSome_some]
  · intro j1
    have hj1 := j1.isLt
    have hlt : (code &&& 0x7f) * 16 + j1.val < 2048 := by omega
    exact ⟨hlt, by rw [mem_read_some _ _ hlt]; rfl⟩
  · intro j1
    have hj1 := j1.isLt
    have hlt : (code &&& 0x7f) * 16 + (j1.val + 3) - 3 < 2048 := by omega
    exact ⟨hlt, by rw [mem_read_some _ _ hlt]; rfl⟩
  · rw [set_pix16_eq _ _ _ _ (by omega) (by omega)]
    rfl

/-- C17: the pixel at `(py, px)` of the rendered bitmap depends on the video RAM
only through the byte at index `(py/15)*64 + (px/10)`. So if two video RAM
contents differ only at local offset `k`, their rendered bitmaps (same font) are
equal at every pixel outside the cell with rows `(k/64)*15 .. (k/64)*15+14` and
columns `(k%64)*10 .. (k%64)*10+9`. -/
theorem C17_renderer_locality (dev1 dev2 : poly_vti_device) (bitmap1 bitmap2 : bitmap_ind16)
    (hF : dev1.m_FNT = dev2.m_FNT) :
    ∃ out1 out2, screen_update dev1 bitmap1 = some out1 ∧
      screen_update dev2 bitmap2 = some out2 ∧
      (∀ py px, py < 240 → px < 640 →
        mem_read dev1.m_video_ram (py / 15 * 64 + px / 10) =
          mem_read dev2.m_video_ram (py / 15 * 64 + px / 10) →
        out1.2.2.pix16 py px = out2.2.2.pix16 py px) ∧
      (∀ k, k < 1024 →
        (∀ i : Fin 0x400, i.val ≠ k → dev1.m_video_ram i = dev2.m_video_ram i) →
        ∀ py px, py < 240 → px < 640 →
          ¬ (k / 64 * 15 ≤ py ∧ py ≤ k / 64 * 15 + 14 ∧
            k % 64 * 10 ≤ px ∧ px ≤ k % 64 * 10 + 9) →
          out1.2.2.pix16 py px = out2.2.2.pix16 py px) := by
  have key : ∀ py px, py < 240 → px < 640 →
      mem_read dev1.m_video_ram (py / 15 * 64 + px / 10) =
        mem_read dev2.m_video_ram (py / 15 * 64 + px / 10) →
      (render dev1).pix16 py px = (render dev2).pix16 py px := by
    intro py px hpy hpx hbyte
    rw [render_pix16_any dev1 py px hpy hpx, render_pix16_any dev2 py px hpy hpx,
      cell_pixel_font dev1 dev2 hF]
    simp only [video_ram_at, hbyte]
  refine ⟨(0, dev1, render dev1), (0, dev2, render dev2), screen_update_eq dev1 bitmap1,
    screen_update_eq dev2 bitmap2, key, ?_⟩
  intro k hk hdiff py px hpy hpx hout
  apply key py px hpy hpx
  have hi : py / 15 * 64 + px / 10 < 0x400 := by omega
  rw [mem_read_some _ _ hi, mem_read_some _ _ hi]
  exact congrArg some (hdiff ⟨py / 15 * 64 + px / 10, hi⟩ (by
    show py / 15 * 64 + px / 10 ≠ k
    omega))

theorem sample_pixel_segment :
    (render (sample_device 0x20 0)).pix16 30 32 = some 0 := by
  rw [render_pix16_any _ 30 32 (by decide) (by decide)]
  decide

set_option maxRecDepth 8192 in
theorem sample_pixel_font :
    (render (sample_device_poke 0x20 131 0xC1)).pix16 30 32 = some 1 := by
  rw [render_pix16_any _ 30 32 (by decide) (by decide)]
  decide

/-- Witness of C17: a screen filled with 0x20 and the same screen with the single
byte at local offset 131 (cell column 3, row 2) replaced by 0xC1, over the same
font ROM. The two video RAMs differ at offset 131 and nowhere else; the rendered
bitmaps agree at every pixel outside rows 30..44, columns 30..39, for instance
at (0, 0) and at (45, 30), and differ inside that cell at (30, 32). -/
theorem C17_renderer_locality_witness :
    (sample_device 0x20 0).m_FNT = (sample_device_poke 0x20 131 0xC1).m_FNT ∧
    131 < 1024 ∧
    (∀ i : Fin 0x400, i.val ≠ 131 →
      (sample_device 0x20 0).m_video_ram i =
        (sample_device_poke 0x20 131 0xC1).m_video_ram i) ∧
    mem_read (sample_device 0x20 0).m_video_ram 131 = some 0x20 ∧
    mem_read (sample_device_poke 0x20 131 0xC1).m_video_ram 131 = some 0xC1 ∧
    mem_read (sample_device 0x20 0).m_video_ram (45 / 15 * 64 + 30 / 10) =
      mem_read (sample_device_poke 0x20 131 0xC1).m_video_ram (45 / 15 * 64 + 30 / 10) ∧
    ∃ out1 out2, screen_update (sample_device 0x20 0) blank_bitmap = some out1 ∧
      screen_update (sample_device_poke 0x20 131 0xC1) blank_bitmap = some out2 ∧
      (∀ py px, py < 240 → px < 640 →
        ¬ (131 / 64 * 15 ≤ py ∧ py ≤ 131 / 64 * 15 + 14 ∧
          131 % 64 * 10 ≤ px ∧ px ≤ 131 % 64 * 10 + 9) →
        out1.2.2.pix16 py px = out2.2.2.pix16 py px) ∧
      out1.2.2.pix16 0 0 = out2.2.2.pix16 0 0 ∧
      out1.2.2.pix16 45 30 = out2.2.2.pix16 45 30 ∧
      out1.2.2.pix16 30 32 = some 0 ∧ out2.2.2.pix16 30 32 = some 1 := by
  have hdiff : ∀ i : Fin 0x400, i.val ≠ 131 →
      (sample_device 0x20 0).m_video_ram i =
        (sample_device_poke 0x20 131 0xC1).m_video_ram i := by
    intro i hi
    show 0x20 = if i.val = 131 then 0xC1 else 0x20
    rw [if_neg hi]
  obtain ⟨out1, out2, h1, h2, hbyte, hcell⟩ :=
    C17_renderer_locality (sample_device 0x20 0) (sample_device_poke 0x20 131 0xC1)
      blank_bitmap blank_bitmap rfl
  have e1 : out1 = (0, sample_device 0x20 0, render (sample_device 0x20 0)) := by
    rw [screen_update_eq] at h1
    exact (Option.some.inj h1).symm
  have e2 : out2 = (0, sample_device_poke 0x20 131 0xC1,
      render (sample_device_poke 0x20 131 0xC1)) := by
    rw [screen_update_eq] at h2
    exact (Option.some.inj h2).symm
  refine ⟨rfl, by decide, hdiff, by decide, by decide, by decide, out1, out2, h1, h2,
    hcell 131 (by decide) hdiff, ?_, ?_, ?_, ?_⟩
  · exact hcell 131 (by decide) hdiff 0 0 (by decide) (by decide) (by decide)
  · exact hbyte 45 30 (by decide) (by decide) (by decide)
  · rw [e1]
    exact sample_pixel_segment
  · rw [e2]
    exact sample_pixel_font

/-- C18: in segment mode bit 6 of the stored byte has no effect on the picture:
for every byte `c` with bit 7 clear, a cell holding `c` and a cell holding
`c XOR 0x40` (which is in segment mode too) render to identical 10x15 pixel
blocks. -/
theorem C18_segment_bit6_unused (dev1 dev2 : poly_vti_device) (bitmap1 bitmap2 : bitmap_ind16)
    (x1 y1 x2 y2 c : Nat) (hx1 : x1 < 64) (hy1 : y1 < 16) (hx2 : x2 < 64) (hy2 : y2 < 16)
    (hc1 : mem_read dev1.m_video_ram (y1 * 64 + x1) = some c)
    (hc2 : mem_read dev2.m_video_ram (y2 * 64 + x2) = some (c ^^^ 0x40))
    (h7 : c &&& 0x80 = 0) :
    (c ^^^ 0x40) &&& 0x80 = 0 ∧
    ∃ out1 out2, screen_update dev1 bitmap1 = some out1 ∧
      screen_update dev2 bitmap2 = some out2 ∧
      ∀ j b, j < 15 → b < 10 →
        out1.2.2.pix16 (y1 * 15 + j) (x1 * 10 + b) =
          out2.2.2.pix16 (y2 * 15 + j) (x2 * 10 + b) := by
  have h7x : (c ^^^ 0x40) &&& 0x80 = 0 := by
    rw [and_0x80_eq_zero_iff, testBit_xor_0x40 c 7 (by decide)]
    exact (and_0x80_eq_zero_iff c).1 h7
  refine ⟨h7x, (0, dev1, render dev1), (0, dev2, render dev2), screen_update_eq dev1 bitmap1,
    screen_update_eq dev2 bitmap2, ?_⟩
  intro j b hj hb
  rw [render_pix16 dev1 x1 y1 j b hx1 hy1 hj hb, render_pix16 dev2 x2 y2 j b hx2 hy2 hj hb,
    video_ram_at_eq dev1 _ c hc1, video_ram_at_eq dev2 _ (c ^^^ 0x40) hc2]
  have hle := segmentBit_le (j / 5) (b / 5)
  simp only [cell_pixel, if_pos h7, if_pos h7x, segment_value, BIT, shr_and_one,
    testBit_xor_0x40 c (segmentBit (j / 5) (b / 5)) (by omega)]

/-- Witness of C18: screens filled with 0x15 and with 0x55 = 0x15 XOR 0x40,
cells (3, 2) and (5, 7). -/
theorem C18_segment_bit6_unused_witness :
    3 < 64 ∧ 2 < 16 ∧ 5 < 64 ∧ 7 < 16 ∧
    mem_read (sample_device 0x15 0).m_video_ram (2 * 64 + 3) = some 0x15 ∧
    mem_read (sample_device 0x55 0).m_video_ram (7 * 64 + 5) = some (0x15 ^^^ 0x40) ∧
    0x15 &&& 0x80 = 0 ∧
    ((0x15 ^^^ 0x40) &&& 0x80 = 0 ∧
    ∃ out1 out2, screen_update (sample_device 0x15 0) blank_bitmap = some out1 ∧
      screen_update (sample_device 0x55 0) blank_bitmap = some out2 ∧
      ∀ j b, j < 15 → b < 10 →
        out1.2.2.pix16 (2 * 15 + j) (3 * 10 + b) =
          out2.2.2.pix16 (7 * 15 + j) (5 * 10 + b)) :=
  ⟨by decide, by decide, by decide, by decide, by decide, by decide, by decide,
    C18_segment_bit6_unused (sample_device 0x15 0) (sample_device 0x55 0) blank_bitmap
      blank_bitmap 3 2 5 7 0x15 (by decide) (by decide) (by decide) (by decide) (by decide)
      (by decide) (by decide)⟩

end PolyVti

namespace FidelCC7

/-! ## Bit lemmas for `control_w` -/

theorem BIT_eq_toNat (x n : Nat) : BIT x n = (x.testBit n).toNat :=
  PolyVti.shr_and_one x n

theorem toNat_inj (a b : Bool) (h : a.toNat = b.toNat) : a = b := by
  cases a <;> cases b <;> first | rfl | exact absurd h (by decide)

theorem and_7_lt (offset : Nat) : offset &&& 7 < 8 :=
  Nat.and_lt_two_pow offset (by norm_num : 7 < 2 ^ 3)

theorem and_7_of_lt (offset : Nat) (h : offset < 8) : offset &&& 7 = offset := by
  have h7 := Nat.and_pow_two_sub_one_eq_mod offset 3
  have h8 : offset % 2 ^ 3 = offset := Nat.mod_eq_of_lt h
  rw [h8] at h7
  exact h7

theorem mask_eq (offset : Nat) : (1 <<< (offset &&& 7)) % 0x100 = 2 ^ (offset &&& 7) := by
  rw [Nat.one_shiftLeft]
  apply Nat.mod_eq_of_lt
  have h := and_7_lt offset
  calc 2 ^ (offset &&& 7) ≤ 2 ^ 7 := Nat.pow_le_pow_right (by decide) (by omega)
    _ < 0x100 := by decide

theorem data_bit7 (data : Nat) : (data % 0x100) &&& 0x80 ≠ 0 ↔ data.testBit 7 = true := by
  have h100 : (0x100 : Nat) = 2 ^ 8 := by decide
  have hmod : (data % 0x100).testBit 7 = data.testBit 7 := by
    rw [h100, Nat.testBit_mod_two_pow, decide_eq_true (by decide : 7 < 8), Bool.true_and]
  rw [Ne, PolyVti.and_0x80_eq_zero_iff, hmod]
  cases data.testBit 7
  · exact ⟨fun h => absurd rfl h, fun h => Bool.noConfusion h⟩
  · exact ⟨fun _ => rfl, fun _ h => Bool.noConfusion h⟩

/-- The segment value after a store of `c` into bit `n`, bit by bit. -/
theorem seg_testBit (x n k : Nat) (c : Prop) [Decidable c] (hk : k < 32) :
    ((x &&& (2 ^ n ^^^ 0xFFFFFFFF)) ||| (if c then 2 ^ n else 0)).testBit k =
      if k = n then decide c else x.testBit k := by
  have hff : (0xFFFFFFFF : Nat) = 2 ^ 32 - 1 := by decide
  rw [Nat.testBit_or, Nat.testBit_and, Nat.testBit_xor, hff, Nat.testBit_two_pow_sub_one,
    Nat.testBit_two_pow, decide_eq_true hk]
  by_cases hkn : k = n
  · subst hkn
    rw [if_pos rfl, decide_eq_true rfl]
    by_cases hc : c
    · rw [if_pos hc, Nat.testBit_two_pow_self, decide_eq_true hc]
      simp
    · rw [if_neg hc, Nat.zero_testBit, decide_eq_false hc]
      simp
  · rw [if_neg hkn, decide_eq_false (fun h => hkn h.symm)]
    by_cases hc : c
    · rw [if_pos hc, Nat.testBit_two_pow, decide_eq_false (fun h => hkn h.symm)]
      simp
    · rw [if_neg hc, Nat.zero_testBit]
      simp

theorem seg_lt (x n : Nat) (c : Prop) [Decidable c] (hx : x < 256) (hn : n < 8) :
    (x &&& (2 ^ n ^^^ 0xFFFFFFFF)) ||| (if c then 2 ^ n else 0) < 256 := by
  have h1 : x &&& (2 ^ n ^^^ 0xFFFFFFFF) < 2 ^ 8 :=
    Nat.lt_of_le_of_lt Nat.and_le_left hx
  have h2 : (if c then 2 ^ n else 0) < 2 ^ 8 := by
    by_cases hc : c
    · rw [if_pos hc]
      exact Nat.pow_lt_pow_right (by decide) hn
    · rw [if_neg hc]
      decide
  exact Nat.or_lt_two_pow h1 h2

theorem control_w_seg (st : bcc_state) (offset data : Nat) :
    (control_w st offset data).m_7seg_data =
      (st.m_7seg_data &&& (2 ^ (offset &&& 7) ^^^ 0xFFFFFFFF)) |||
        (if (data % 0x100) &&& 0x80 ≠ 0 then 2 ^ (offset &&& 7) else 0) := by
  simp only [control_w, mask_eq]

theorem control_w_testBit (st : bcc_state) (offset data k : Nat) (hk : k < 32) :
    (control_w st offset data).m_7seg_data.testBit k =
      if k = offset &&& 7 then data.testBit 7 else st.m_7seg_data.testBit k := by
  rw [control_w_seg, seg_testBit _ _ _ _ hk]
  by_cases hkn : k = offset &&& 7
  · rw [if_pos hkn, if_pos hkn]
    by_cases hb : data.testBit 7 = true
    · rw [hb, decide_eq_true ((data_bit7 data).2 hb)]
    · rw [Bool.not_eq_true] at hb
      rw [hb, decide_eq_false (fun h => by
        have := (data_bit7 data).1 h
        rw [hb] at this
        exact Bool.noConfusion this)]
  · rw [if_neg hkn, if_neg hkn]

theorem range_four : List.range 4 = [0, 1, 2, 3] := rfl

theorem or_if (c : Prop) [Decidable c] (a r : Nat) :
    (if c then a ||| r else a) = a ||| (if c then r else 0) := by
  by_cases hc : c
  · rw [if_pos hc, if_pos hc]
  · rw [if_neg hc, if_neg hc, Nat.or_zero]

theorem data_and_0xF (data : Nat) (hd : data < 256) : (data % 0x100) &&& 0xf = data &&& 0xF := by
  rw [Nat.mod_eq_of_lt hd]

/-! ## Keypad multiplexer and segment latch -/

/-- C11: after `control_w offset data`, for every key state `rowBits[0..3]`,
`input_r` returns the bitwise OR of `rowBits[i]` over exactly those `i` in 0..3
for which bit `i` of `muxSelect = data & 0xF` is set, truncated to 4 bits (0
when no bit is selected). For `muxSelect = 0b0011` and
`rowBits = [0x1, 0x2, 0x4, 0x8]` the result is 0x3. -/
theorem C11_keypad_multiplexer (st : bcc_state) (offset data : Nat) (hd : data < 256) :
    (control_w st offset data).m_inp_mux = data &&& 0xF ∧
    input_r (control_w st offset data) =
      ((if BIT (data &&& 0xF) 0 ≠ 0 then st.m_inp_matrix 0 else 0) |||
       (if BIT (data &&& 0xF) 1 ≠ 0 then st.m_inp_matrix 1 else 0) |||
       (if BIT (data &&& 0xF) 2 ≠ 0 then st.m_inp_matrix 2 else 0) |||
       (if BIT (data &&& 0xF) 3 ≠ 0 then st.m_inp_matrix 3 else 0)) % 16 ∧
    ((BIT (data &&& 0xF) 0 = 0 ∧ BIT (data &&& 0xF) 1 = 0 ∧ BIT (data &&& 0xF) 2 = 0 ∧
      BIT (data &&& 0xF) 3 = 0) → input_r (control_w st offset data) = 0) ∧
    input_r (control_w (sample_state 0 0) 0 0b0011) = 0x3 ∧
    input_r (sample_state 0 0b0011) = 0x1 ||| 0x2 := by
  have hmux : (control_w st offset data).m_inp_mux = data &&& 0xF := data_and_0xF data hd
  have hrows : (control_w st offset data).m_inp_matrix = st.m_inp_matrix := rfl
  have hval : input_r (control_w st offset data) =
      ((if BIT (data &&& 0xF) 0 ≠ 0 then st.m_inp_matrix 0 else 0) |||
       (if BIT (data &&& 0xF) 1 ≠ 0 then st.m_inp_matrix 1 else 0) |||
       (if BIT (data &&& 0xF) 2 ≠ 0 then st.m_inp_matrix 2 else 0) |||
       (if BIT (data &&& 0xF) 3 ≠ 0 then st.m_inp_matrix 3 else 0)) % 16 := by
    simp only [input_r, read_inputs, range_four, List.foldl_cons, List.foldl_nil, hmux, hrows]
    have h16 : (2 : Nat) ^ 4 = 16 := by decide
    have hlt : ∀ a : Nat, a % 16 % 0x100 = a % 16 := fun a => Nat.mod_eq_of_lt (by omega)
    rw [h16, hlt]
    simp only [or_if, Nat.zero_or]
  refine ⟨hmux, hval, ?_, by decide, by decide⟩
  intro h
  rw [hval]
  simp only [h.1, h.2.1, h.2.2.1, h.2.2.2, ne_eq, not_true_eq_false, if_false, Nat.or_zero,
    Nat.zero_mod]

/-- Witness of C11: the rows `[0x1, 0x2, 0x4, 0x8]`, control write of 0x13 at
offset 5. -/
theorem C11_keypad_multiplexer_witness :
    0x13 < 256 ∧
    ((control_w (sample_state 0 0) 5 0x13).m_inp_mux = 0x13 &&& 0xF ∧
    input_r (control_w (sample_state 0 0) 5 0x13) =
      ((if BIT (0x13 &&& 0xF) 0 ≠ 0 then (sample_state 0 0).m_inp_matrix 0 else 0) |||
       (if BIT (0x13 &&& 0xF) 1 ≠ 0 then (sample_state 0 0).m_inp_matrix 1 else 0) |||
       (if BIT (0x13 &&& 0xF) 2 ≠ 0 then (sample_state 0 0).m_inp_matrix 2 else 0) |||
       (if BIT (0x13 &&& 0xF) 3 ≠ 0 then (sample_state 0 0).m_inp_matrix 3 else 0)) % 16 ∧
    ((BIT (0x13 &&& 0xF) 0 = 0 ∧ BIT (0x13 &&& 0xF) 1 = 0 ∧ BIT (0x13 &&& 0xF) 2 = 0 ∧
      BIT (0x13 &&& 0xF) 3 = 0) → input_r (control_w (sample_state 0 0) 5 0x13) = 0) ∧
    input_r (control_w (sample_state 0 0) 0 0b0011) = 0x3 ∧
    input_r (sample_state 0 0b0011) = 0x1 ||| 0x2) :=
  ⟨by decide, C11_keypad_multiplexer (sample_state 0 0) 5 0x13 (by decide)⟩

/-- C12: `control_w offset data`, for every offset, data byte and prior state:
bit `offset & 7` of the segment byte `m_7seg_data` becomes equal to bit 7 of
`data`, the other seven bits of `m_7seg_data` keep their previous values, the mux
selection `m_inp_mux` becomes `data & 0xF`, and the digit/LED selection passed
to `display_matrix` is `data & 0x3F` (with 8 columns, 6 rows and the new segment
byte). -/
theorem C12_control_write (st : bcc_state) (offset data : Nat) (hd : data < 256) :
    BIT (control_w st offset data).m_7seg_data (offset &&& 7) = BIT data 7 ∧
    (∀ k, k < 8 → k ≠ offset &&& 7 →
      BIT (control_w st offset data).m_7seg_data k = BIT st.m_7seg_data k) ∧
    (control_w st offset data).m_inp_mux = data &&& 0xF ∧
    (control_w st offset data).display_matrix =
      some (8, 6, (control_w st offset data).m_7seg_data, data &&& 0x3F) := by
  have h7 := and_7_lt offset
  refine ⟨?_, ?_, data_and_0xF data hd, ?_⟩
  · rw [BIT_eq_toNat, BIT_eq_toNat, control_w_testBit st offset data _ (by omega), if_pos rfl]
  · intro k hk hne
    rw [BIT_eq_toNat, BIT_eq_toNat, control_w_testBit st offset data k (by omega), if_neg hne]
  · simp only [control_w, Nat.mod_eq_of_lt hd]

/-- Witness of C12: segment byte 0x5A, control write of 0x93 at offset 2. -/
theorem C12_control_write_witness :
    0x93 < 256 ∧
    (BIT (control_w (sample_state 0x5A 0) 2 0x93).m_7seg_data (2 &&& 7) = BIT 0x93 7 ∧
    (∀ k, k < 8 → k ≠ 2 &&& 7 →
      BIT (control_w (sample_state 0x5A 0) 2 0x93).m_7seg_data k =
        BIT (sample_state 0x5A 0).m_7seg_data k) ∧
    (control_w (sample_state 0x5A 0) 2 0x93).m_inp_mux = 0x93 &&& 0xF ∧
    (control_w (sample_state 0x5A 0) 2 0x93).display_matrix =
      some (8, 6, (control_w (sample_state 0x5A 0) 2 0x93).m_7seg_data, 0x93 &&& 0x3F)) :=
  ⟨by decide, C12_control_write (sample_state 0x5A 0) 2 0x93 (by decide)⟩

theorem control_writes_testBit (v : Nat) (ws : List (Nat × Nat)) :
    ∀ st : bcc_state, st.m_7seg_data < 256 →
      (∀ w ∈ ws, w.2.testBit 7 = v.testBit (w.1 &&& 7)) →
      (ws.foldl (fun s w => control_w s w.1 w.2) st).m_7seg_data < 256 ∧
      ∀ k, (∃ w ∈ ws, w.1 &&& 7 = k) →
        (ws.foldl (fun s w => control_w s w.1 w.2) st).m_7seg_data.testBit k =
          v.testBit k := by
  induction ws with
  | nil =>
    intro st hst _
    exact ⟨hst, fun k hk => by
      obtain ⟨w, hw, _⟩ := hk
      exact absurd hw (List.not_mem_nil w)⟩
  | cons w ws ih =>
    intro st hst hbits
    have hlt1 : (control_w st w.1 w.2).m_7seg_data < 256 := by
      rw [control_w_seg]
      exact seg_lt _ _ _ hst (and_7_lt w.1)
    have hrest : ∀ w1 ∈ ws, w1.2.testBit 7 = v.testBit (w1.1 &&& 7) :=
      fun w1 hw1 => hbits w1 (List.mem_cons_of_mem w hw1)
    obtain ⟨hlt, hih⟩ := ih (control_w st w.1 w.2) hlt1 hrest
    rw [List.foldl_cons]
    refine ⟨hlt, ?_⟩
    intro k hk
    by_cases hin : ∃ w1 ∈ ws, w1.1 &&& 7 = k
    · exact hih k hin
    · obtain ⟨w0, hw0, hk0⟩ := hk
      have hw0w : w0 = w := by
        rcases List.mem_cons.1 hw0 with h | h
        · exact h
        · exact absurd ⟨w0, h, hk0⟩ hin
      subst hw0w
      have hkeep : ∀ (ws1 : List (Nat × Nat)) (s : bcc_state),
          (¬ ∃ w1 ∈ ws1, w1.1 &&& 7 = k) →
          (ws1.foldl (fun s w => control_w s w.1 w.2) s).m_7seg_data.testBit k =
            s.m_7seg_data.testBit k := by
        intro ws1
        induction ws1 with
        | nil => intro s _; rfl
        | cons w1 ws1 ih1 =>
          intro s hno
          rw [List.foldl_cons, ih1 (control_w s w1.1 w1.2) (fun ⟨w2, hw2, hk2⟩ =>
            hno ⟨w2, List.mem_cons_of_mem w1 hw2, hk2⟩)]
          have hk32 : k < 32 := by
            have := and_7_lt w0.1
            omega
          rw [control_w_testBit s w1.1 w1.2 k hk32,
            if_neg (fun h => hno ⟨w1, List.mem_cons_self w1 ws1, h.symm⟩)]
      have hk32 : k < 32 := by
        have := and_7_lt w0.1
        omega
      rw [hkeep ws _ hin, control_w_testBit st w0.1 w0.2 k hk32, if_pos hk0.symm,
        hbits w0 (List.mem_cons_self w0 ws), hk0]

theorem control_w_twice (st : bcc_state) (offset data : Nat) :
    (control_w (control_w st offset data) offset data).m_7seg_data =
      (control_w st offset data).m_7seg_data := by
  rw [control_w_seg (control_w st offset data), control_w_seg st]
  apply Nat.eq_of_testBit_eq
  intro k
  simp only [Nat.testBit_or, Nat.testBit_and]
  generalize st.m_7seg_data.testBit k = a
  generalize (2 ^ (offset &&& 7) ^^^ 0xFFFFFFFF).testBit k = m
  generalize (if (data % 0x100) &&& 0x80 ≠ 0 then 2 ^ (offset &&& 7) else 0).testBit k = t
  cases a <;> cases m <;> cases t <;> rfl

/-- C19: for every target byte `v` and every prior segment byte, the eight
control writes with offsets 0..7, in any order, where the write at offset `i`
carries bit 7 of its data equal to bit `i` of `v`, leave `m_7seg_data == v`; and
repeating the same control write gives the same `m_7seg_data` and `m_inp_mux`
as doing it once. -/
theorem C19_assemble_segment_byte (st : bcc_state) (v : Nat) (ws : List (Nat × Nat))
    (hv : v < 256) (hst : st.m_7seg_data < 256)
    (hperm : (ws.map Prod.fst).Perm (List.range 8))
    (hbits : ∀ w ∈ ws, BIT w.2 7 = BIT v w.1) :
    (ws.foldl (fun s w => control_w s w.1 w.2) st).m_7seg_data = v ∧
    ∀ (s : bcc_state) (offset data : Nat),
      (control_w (control_w s offset data) offset data).m_7seg_data =
        (control_w s offset data).m_7seg_data ∧
      (control_w (control_w s offset data) offset data).m_inp_mux =
        (control_w s offset data).m_inp_mux := by
  have hoff : ∀ w ∈ ws, w.1 < 8 := by
    intro w hw
    have h1 : w.1 ∈ ws.map Prod.fst := List.mem_map_of_mem Prod.fst hw
    exact List.mem_range.1 (hperm.mem_iff.1 h1)
  have hbits1 : ∀ w ∈ ws, w.2.testBit 7 = v.testBit (w.1 &&& 7) := by
    intro w hw
    have h := hbits w hw
    rw [BIT_eq_toNat, BIT_eq_toNat] at h
    rw [and_7_of_lt w.1 (hoff w hw)]
    exact toNat_inj _ _ h
  obtain ⟨hlt, hall⟩ := control_writes_testBit v ws st hst hbits1
  refine ⟨?_, fun s offset data => ⟨control_w_twice s offset data, rfl⟩⟩
  apply Nat.eq_of_testBit_eq
  intro k
  by_cases hk : k < 8
  · have h1 : k ∈ ws.map Prod.fst := hperm.mem_iff.2 (List.mem_range.2 hk)
    obtain ⟨w, hw, hwk⟩ := List.mem_map.1 h1
    refine hall k ⟨w, hw, ?_⟩
    rw [hwk]
    exact and_7_of_lt k hk
  · have hpow : (2 : Nat) ^ 8 ≤ 2 ^ k := Nat.pow_le_pow_right (by decide) (by omega)
    rw [Nat.testBit_lt_two_pow (Nat.lt_of_lt_of_le hlt hpow),
      Nat.testBit_lt_two_pow (Nat.lt_of_lt_of_le hv hpow)]

/-- Witness of C19: the byte 0xA5 assembled over the segment byte 0x5A by the
eight writes in the order 3, 0, 7, 1, 5, 2, 6, 4. -/
theorem C19_assemble_segment_byte_witness :
    0xA5 < 256 ∧ (sample_state 0x5A 0).m_7seg_data < 256 ∧
    ([(3, 0x00), (0, 0x8F), (7, 0x80), (1, 0x13), (5, 0xB0), (2, 0x80), (6, 0x00),
      (4, 0x7F)].foldl (fun s w => control_w s w.1 w.2) (sample_state 0x5A 0)).m_7seg_data =
      0xA5 ∧
    ∀ (s : bcc_state) (offset data : Nat),
      (control_w (control_w s offset data) offset data).m_7seg_data =
        (control_w s offset data).m_7seg_data ∧
      (control_w (control_w s offset data) offset data).m_inp_mux =
        (control_w s offset data).m_inp_mux :=
  ⟨by decide, by decide,
    C19_assemble_segment_byte (sample_state 0x5A 0) 0xA5
      [(3, 0x00), (0, 0x8F), (7, 0x80), (1, 0x13), (5, 0xB0), (2, 0x80), (6, 0x00), (4, 0x7F)]
      (by decide) (by decide) (by decide) (by decide)⟩

end FidelCC7
